import Mathlib

/-!
# weather-dashboard-alerts: the server handlers and the client helpers

A shallow embedding of the computations of `src/server.js`:

* the body of `app.get('/api/forecast')` after the two provider responses have
  arrived (lines 188-253): bucketing of forecast slices by local calendar day,
  the per-day summary and the trimming to "today and later, at most five";
* the normalizer and the advisory rules of `app.get('/api/weather')`
  (lines 118-135);
* the selection of the provider request in `/api/weather`, `/api/forecast` and
  `/api/geocode` (lines 104-114, 170-183, 264-266);

and of `src/public/js/main.js`: `convertTemp`, `addCurrentToFavorites` and the
arrow keys of the suggestion list.

Numbers. Timestamps, offsets and the clock are integers (`Int`); on integers the
double arithmetic of the handler is exact inside the range of a JavaScript
`Date`, and outside that range the `Date` is invalid whatever the rounding.
Temperatures, wind speed and the condition code are finite numbers, modelled as
rationals (`ℚ`): the handler only compares them and takes maxima and minima,
which is exact on doubles.

Dates. `new Date(v)`, `getUTCFullYear`, `getUTCMonth`, `getUTCDate` and
`Date.UTC` follow the ECMAScript definitions (`TimeClip`, `DayFromYear`,
`YearFromTime`, `MonthFromTime`, `DateFromTime`, `MakeDay`), including the rule
of `Date.UTC` that a year from 0 to 99 stands for 1900 + year.
The ISO string of `date` is represented by the time value it denotes:
`new Date(x).toISOString()` and `new Date(s).getTime()` are mutually inverse on
valid dates, and `toISOString` throws on an invalid one.
-/

/-! ## ECMAScript time values -/

/-- Milliseconds per day (`msPerDay`). -/
def msPerDay : Int := 86400000

/-- The largest magnitude of a time value: 8.64e15 ms, that is 1e8 days. -/
def maxTime : Int := 8640000000000000

/-- `TimeClip`: a time value is kept when its magnitude is at most 8.64e15,
otherwise the result is NaN (`none`). -/
def timeClip (v : Int) : Option Int :=
  if -maxTime ≤ v ∧ v ≤ maxTime then some v else none

/-- `new Date(v)` for an integral number `v`: the time value of the date, or
`none` for an Invalid Date. -/
def newDate (v : Int) : Option Int := timeClip v

/-- `Day(t) = floor(t / msPerDay)`. -/
def dayOfTime (t : Int) : Int := t / msPerDay

/-- `DayFromYear(y)`: the day number of the first day of year `y`. -/
def dayFromYear (y : Int) : Int :=
  365 * (y - 1970) + (y - 1969) / 4 - (y - 1901) / 100 + (y - 1601) / 400

/-- `YearFromTime` on day numbers: the largest `y` with `DayFromYear(y) ≤ day`,
computed from the 400-year estimate and one correction step
(see `yearFromDay_spec`). -/
def yearFromDay (day : Int) : Int :=
  let y := 1970 + day * 400 / 146097
  if day < dayFromYear y then y - 1
  else if dayFromYear (y + 1) ≤ day then y + 1
  else y

/-- `InLeapYear`: 1 in a leap year, 0 otherwise. -/
def inLeapYear (y : Int) : Int :=
  if y % 4 ≠ 0 then 0 else if y % 100 ≠ 0 then 1 else if y % 400 ≠ 0 then 0 else 1

/-- The day within the year on which month `m` (0 = January) starts. -/
def monthStart (m : Int) (leap : Int) : Int :=
  if m = 0 then 0 else if m = 1 then 31 else if m = 2 then 59 + leap
  else if m = 3 then 90 + leap else if m = 4 then 120 + leap
  else if m = 5 then 151 + leap else if m = 6 then 181 + leap
  else if m = 7 then 212 + leap else if m = 8 then 243 + leap
  else if m = 9 then 273 + leap else if m = 10 then 304 + leap
  else 334 + leap

/-- `DayWithinYear`: the day number minus the first day of its year. -/
def dayWithinYear (day : Int) : Int := day - dayFromYear (yearFromDay day)

/-- The table of `MonthFromTime`: the month (0 = January) of the day `dwy`
within a year, `leap` being `InLeapYear`. -/
def monthOfDayWithinYear (dwy leap : Int) : Int :=
  if dwy < 31 then 0 else if dwy < 59 + leap then 1 else if dwy < 90 + leap then 2
  else if dwy < 120 + leap then 3 else if dwy < 151 + leap then 4
  else if dwy < 181 + leap then 5 else if dwy < 212 + leap then 6
  else if dwy < 243 + leap then 7 else if dwy < 273 + leap then 8
  else if dwy < 304 + leap then 9 else if dwy < 334 + leap then 10 else 11

/-- `MonthFromTime` on day numbers. -/
def monthFromDay (day : Int) : Int :=
  monthOfDayWithinYear (dayWithinYear day) (inLeapYear (yearFromDay day))

/-- `DateFromTime` on day numbers: the day of the month, from 1. -/
def dateFromDay (day : Int) : Int :=
  dayWithinYear day - monthStart (monthFromDay day) (inLeapYear (yearFromDay day)) + 1

/-- `getUTCFullYear()` of a valid date with time value `t`. -/
def getUTCFullYear (t : Int) : Int := yearFromDay (dayOfTime t)

/-- `getUTCMonth()` of a valid date with time value `t` (0 = January). -/
def getUTCMonth (t : Int) : Int := monthFromDay (dayOfTime t)

/-- `getUTCDate()` of a valid date with time value `t`. -/
def getUTCDate (t : Int) : Int := dateFromDay (dayOfTime t)

/-- `MakeDay(year, month, date)` on integers: the day number of the given
calendar date, months beyond 0..11 carried into the year. -/
def makeDay (year month date : Int) : Int :=
  let ym := year + month / 12
  let mn := month % 12
  dayFromYear ym + monthStart mn (inLeapYear ym) + date - 1

/-- `Date.UTC(y, m, d)`: a year from 0 to 99 is read as 1900 + y; the result is
the clipped time value of midnight of that day. -/
def dateUTC (y m d : Int) : Option Int :=
  let yr := if 0 ≤ y ∧ y ≤ 99 then 1900 + y else y
  timeClip (makeDay yr m d * msPerDay)

/-! ## Provider data -/

/-- A JSON value as far as the handler distinguishes it: `typeof v === 'number'`
holds exactly for `num`. -/
inductive JsVal where
  | undefined : JsVal
  | null : JsVal
  | bool (b : Bool) : JsVal
  | num (q : ℚ) : JsVal
  | str (s : String) : JsVal
  deriving DecidableEq

/-- The fields of a forecast slice or of the current-weather payload that the
aggregation reads: `main.temp_max`, `main.temp_min`, `main.temp` and
`weather[0].description` (`none` when absent). -/
structure Conditions where
  temp_max : JsVal
  temp_min : JsVal
  temp : JsVal
  description : Option String

/-- One element of `fData.list`. -/
structure ForecastItem where
  dt : Int
  cond : Conditions

/-- `typeof a === 'number' ? a : b`, followed by the test
`typeof result === 'number'`: the number pushed, if any. -/
def numberOr (a b : JsVal) : Option ℚ :=
  match a with
  | JsVal.num q => some q
  | _ => match b with
    | JsVal.num q => some q
    | _ => none

/-- The value `tmax` of a slice when it is a number. -/
def tmax (c : Conditions) : Option ℚ := numberOr c.temp_max c.temp

/-- The value `tmin` of a slice when it is a number. -/
def tmin (c : Conditions) : Option ℚ := numberOr c.temp_min c.temp

/-- The description pushed by `if (desc) b.descs.push(desc)`: a present,
non-empty string. -/
def descOf (c : Conditions) : Option String :=
  match c.description with
  | some s => if s = "" then none else some s
  | none => none

/-! ## Buckets -/

/-- The calendar date `(y, m, d)` read off a `Date`; the string key
`YYYY-MM-DD` of the handler is an injective rendering of it. -/
structure DayKey where
  y : Int
  m : Int
  d : Int
  deriving DecidableEq

/-- A value of the `buckets` map, together with its key. -/
structure Bucket where
  key : DayKey
  maxes : List ℚ
  mins : List ℚ
  descs : List String
  epochDay : Int

/-- For a shifted timestamp `ms`: the key and `epochDay = Date.UTC(y, m, d)`
that the handler derives from `new Date(ms)`. The result is `none` when a date
is invalid: its `epochDay` is NaN, `toISOString` throws in the summary and the
handler answers 500. -/
def bucketOf (ms : Int) : Option (DayKey × Int) :=
  match newDate ms with
  | none => none
  | some t =>
    let y := getUTCFullYear t
    let m := getUTCMonth t
    let d := getUTCDate t
    match dateUTC y m d with
    | none => none
    | some epochDay => some (⟨y, m, d⟩, epochDay)

/-- Push the numeric `tmax`, `tmin` and the description of a slice. -/
def Bucket.push (b : Bucket) (c : Conditions) : Bucket :=
  { b with
    maxes := b.maxes ++ (tmax c).toList
    mins := b.mins ++ (tmin c).toList
    descs := b.descs ++ (descOf c).toList }

/-- The update of the map for one slice:
`if (!buckets.has(key)) buckets.set(key, {...}); const b = buckets.get(key); ...push`.
A new key is appended, so the list is in insertion order. -/
def pushInto (bs : List Bucket) (key : DayKey) (epochDay : Int) (c : Conditions) :
    List Bucket :=
  let bs1 := if bs.any (fun b => b.key = key) then bs else bs ++ [⟨key, [], [], [], epochDay⟩]
  bs1.map (fun b => if b.key = key then b.push c else b)

/-- One slice with shifted timestamp `ms` folded into the buckets. -/
def pushAt (bs : List Bucket) (ms : Int) (c : Conditions) : Option (List Bucket) :=
  match bucketOf ms with
  | none => none
  | some (key, epochDay) => some (pushInto bs key epochDay c)

/-- The body of `for (const item of fData.list)`:
`localSec = item.dt + tz`, `local = new Date(localSec * 1000)`. -/
def addItem (tz : Int) (bs : List Bucket) (item : ForecastItem) : Option (List Bucket) :=
  pushAt bs ((item.dt + tz) * 1000) item.cond

/-- The grouping loop over `fData.list`, from an empty map. -/
def groupItems (tz : Int) (list : List ForecastItem) : Option (List Bucket) :=
  list.foldlM (addItem tz) []

/-! ## Daily summary -/

/-- `b.maxes.length ? Math.max(...b.maxes) : null`. -/
def maxOrNull : List ℚ → Option ℚ
  | [] => none
  | x :: xs => some (xs.foldl max x)

/-- `b.mins.length ? Math.min(...b.mins) : null`. -/
def minOrNull : List ℚ → Option ℚ
  | [] => none
  | x :: xs => some (xs.foldl min x)

/-- The own and inherited property names of `Object.prototype`. The counter
`counts = {}` inherits them: for such a description `counts[d] || 0` is a
function or an object, `counts[d]` becomes a string, and `counts[d] > bestCount`
is false. -/
def objectPrototypeKeys : List String :=
  ["constructor", "__defineGetter__", "__defineSetter__", "hasOwnProperty",
   "__lookupGetter__", "__lookupSetter__", "isPrototypeOf", "propertyIsEnumerable",
   "toString", "valueOf", "__proto__", "toLocaleString"]

/-- The loop state of the mode computation: the numeric entries of `counts`,
`best` and `bestCount`. -/
structure ModeState where
  counts : String → Nat
  best : String
  bestCount : Nat

/-- One iteration:
`counts[d] = (counts[d] || 0) + 1; if (counts[d] > bestCount) { bestCount = counts[d]; best = d; }`.
For a property name of `Object.prototype` the inherited value is truthy and not
a number, the sum is a string, the comparison with `bestCount` is false, and
neither `best`, `bestCount` nor the count of another description changes. -/
def modeStep (s : ModeState) (d : String) : ModeState :=
  if d ∈ objectPrototypeKeys then s
  else
    let c := s.counts d + 1
    let counts := fun k => if k = d then c else s.counts k
    if c > s.bestCount then ⟨counts, d, c⟩ else ⟨counts, s.best, s.bestCount⟩

/-- The representative description of a bucket: `best` after the loop, from
`best = ''`, `bestCount = 0`. -/
def modeOf (descs : List String) : String :=
  (descs.foldl modeStep ⟨fun _ => 0, "", 0⟩).best

/-- An element of the `forecast` array; `date` is the time value of the ISO
string, `none` is `null`. -/
structure DailyForecast where
  date : Int
  temp_max : Option ℚ
  temp_min : Option ℚ
  description : String
  deriving DecidableEq

/-- The `.map(b => ...)` callback. -/
def summarize (b : Bucket) : DailyForecast :=
  { date := b.epochDay
    temp_max := maxOrNull b.maxes
    temp_min := minOrNull b.mins
    description := modeOf b.descs }

/-- The `.sort((a, b) => a.epochDay - b.epochDay)` of the bucket values: a
stable sort by `epochDay`. -/
def sortBuckets (bs : List Bucket) : List Bucket :=
  bs.insertionSort (fun a b => a.epochDay ≤ b.epochDay)

/-- The forecast aggregation with its two readings of the clock: `now1` is
`Date.now()` in the block that folds the current weather into today's bucket,
`now2` is `Date.now()` in the block that trims the list. `none` is the
`catch` branch (status 500), reached when a bucket has an invalid date. When
only the date of the trimming block is invalid, `todayEpoch` is NaN, no entry
passes the filter and the result is the empty list. -/
def forecastDays (list : List ForecastItem) (cData : Conditions) (tz now1 now2 : Int) :
    Option (List DailyForecast) :=
  match groupItems tz list with
  | none => none
  | some buckets =>
    match pushAt buckets (now1 + tz * 1000) cData with
    | none => none
    | some buckets =>
      let days := (sortBuckets buckets).map summarize
      match bucketOf (now2 + tz * 1000) with
      | none => some []
      | some (_, todayEpoch) =>
        some ((days.filter (fun d => todayEpoch ≤ d.date)).take 5)

/-- The aggregation when both readings of the clock give `now`. -/
def forecast (list : List ForecastItem) (cData : Conditions) (tz now : Int) :
    Option (List DailyForecast) :=
  forecastDays list cData tz now now

/-! ## Advisories of `/api/weather` -/

/-- `wid = data?.weather?.[0]?.id ?? 0`: the provider's numeric condition code,
0 when the provider gives none (`none` is an absent or null id). -/
def widOf (id : Option ℚ) : ℚ :=
  match id with
  | some c => c
  | none => 0

/-- `t != null && (t >= 35 || (feels != null && feels >= 35))`. -/
def heatRule (t feels : Option ℚ) : Bool :=
  match t with
  | none => false
  | some tv =>
    decide (35 ≤ tv) ||
      (match feels with
       | none => false
       | some fv => decide (35 ≤ fv))

/-- `t != null && t <= 0`. -/
def freezeRule (t : Option ℚ) : Bool :=
  match t with
  | none => false
  | some tv => decide (tv ≤ 0)

/-- `windMS != null && windMS >= 15`. -/
def windRule (windMS : Option ℚ) : Bool :=
  match windMS with
  | none => false
  | some w => decide (15 ≤ w)

/-- `wid >= 200 && wid < 300`. -/
def thunderRule (wid : ℚ) : Bool := decide (200 ≤ wid) && decide (wid < 300)

/-- The text of the heat advisory. -/
def heatAdvisory : String := "Heat advisory (≥ 35°C)"

/-- The text of the freeze advisory. -/
def freezeRisk : String := "Freeze risk (≤ 0°C)"

/-- The text of the wind advisory. -/
def highWind : String := "High wind (≥ 15 m/s)"

/-- The text of the thunderstorm advisory. -/
def thunderstorm : String := "Thunderstorm"

/-- The `alerts` array of `/api/weather`, from the normalized temperature `t`,
feels-like temperature `feels`, wind speed `windMS` (`none` is `null`) and the
provider's condition code: four `if (...) alerts.push(...)` in sequence. -/
def alerts (t feels windMS : Option ℚ) (id : Option ℚ) : List String :=
  let a0 : List String := []
  let a1 := if heatRule t feels then a0 ++ [heatAdvisory] else a0
  let a2 := if freezeRule t then a1 ++ [freezeRisk] else a1
  let a3 := if windRule windMS then a2 ++ [highWind] else a2
  if thunderRule (widOf id) then a3 ++ [thunderstorm] else a3

/-! ## Notions used to state the properties -/

/-- A shifted timestamp inside the range of a `Date`. -/
def ValidTime (ms : Int) : Prop := -maxTime ≤ ms ∧ ms ≤ maxTime

instance (ms : Int) : Decidable (ValidTime ms) := by
  unfold ValidTime; infer_instance

/-- The calendar date of day number `day`. -/
def keyOfDay (day : Int) : DayKey :=
  ⟨yearFromDay day, monthFromDay day, dateFromDay day⟩

/-- The year of day number `day` is one that `Date.UTC` reads as 1900 + year. -/
def TwoDigitYear (day : Int) : Prop := 0 ≤ yearFromDay day ∧ yearFromDay day ≤ 99

instance (day : Int) : Decidable (TwoDigitYear day) := by
  unfold TwoDigitYear; infer_instance

/-- The local day number of a forecast slice: `floor((dt + tz) / 86400)`. -/
def sliceDay (tz : Int) (item : ForecastItem) : Int := (item.dt + tz) / 86400

/-- The local day number of the clock: `floor((now + tz * 1000) / 86400000)`. -/
def clockDay (tz now : Int) : Int := (now + tz * 1000) / 86400000

/-- The numeric `tmax` values of local day `day`: those of the forecast slices
of that day, in order, then that of the current reading when `day` is today. -/
def maxSamples (list : List ForecastItem) (cData : Conditions) (tz now day : Int) : List ℚ :=
  (list.filter (fun i => sliceDay tz i = day)).filterMap (fun i => tmax i.cond) ++
    (if clockDay tz now = day then (tmax cData).toList else [])

/-- The numeric `tmin` values of local day `day`. -/
def minSamples (list : List ForecastItem) (cData : Conditions) (tz now day : Int) : List ℚ :=
  (list.filter (fun i => sliceDay tz i = day)).filterMap (fun i => tmin i.cond) ++
    (if clockDay tz now = day then (tmin cData).toList else [])

/-- The descriptions of local day `day`. -/
def descSamples (list : List ForecastItem) (cData : Conditions) (tz now day : Int) :
    List String :=
  (list.filter (fun i => sliceDay tz i = day)).filterMap (fun i => descOf i.cond) ++
    (if clockDay tz now = day then (descOf cData).toList else [])

/-- The local days present: those of the slices and that of the clock. -/
def localDays (list : List ForecastItem) (tz now : Int) : List Int :=
  list.map (sliceDay tz) ++ [clockDay tz now]

/-- The time value that the handler computes as `epochDay` for a valid date of
day number `day`: `Date.UTC` of its calendar date, before clipping. -/
def epochOfDay (day : Int) : Int :=
  makeDay (if 0 ≤ yearFromDay day ∧ yearFromDay day ≤ 99 then 1900 + yearFromDay day
    else yearFromDay day) (monthFromDay day) (dateFromDay day) * msPerDay


/-- One source of the grouping with its day number resolved: the pure form of
`pushAt` for a valid date. -/
def pushDay (bs : List Bucket) (e : Int × Conditions) : List Bucket :=
  pushInto bs (keyOfDay e.1) (epochOfDay e.1) e.2

/-- The buckets `bs` are the grouping of the entries `es` (day number and
conditions, in order): keys are distinct, every entry has its bucket, and every
bucket holds the values of the entries of one day, in order. -/
structure Grouped (es : List (Int × Conditions)) (bs : List Bucket) : Prop where
  nodup : (bs.map Bucket.key).Nodup
  complete : ∀ e ∈ es, ∃ b ∈ bs, b.key = keyOfDay e.1
  sound : ∀ b ∈ bs, ∃ day, day ∈ es.map Prod.fst ∧ b.key = keyOfDay day ∧
    b.epochDay = epochOfDay day ∧
    b.maxes = es.filterMap (fun e => if e.1 = day then tmax e.2 else none) ∧
    b.mins = es.filterMap (fun e => if e.1 = day then tmin e.2 else none) ∧
    b.descs = es.filterMap (fun e => if e.1 = day then descOf e.2 else none)

/-- The entries of the grouping loop: local day number and conditions of each
forecast slice. -/
def sliceEntries (tz : Int) (list : List ForecastItem) : List (Int × Conditions) :=
  list.map (fun i => ((i.dt + tz) * 1000 / msPerDay, i.cond))

/-- The entries of the whole grouping: the forecast slices, then the current
reading at the local day of the first clock reading. -/
def allEntries (list : List ForecastItem) (cData : Conditions) (tz now1 : Int) :
    List (Int × Conditions) :=
  sliceEntries tz list ++ [((now1 + tz * 1000) / msPerDay, cData)]

/-- The buckets after the grouping loop and the current-weather block, for valid
dates. -/
def allBuckets (list : List ForecastItem) (cData : Conditions) (tz now1 : Int) :
    List Bucket :=
  pushDay ((sliceEntries tz list).foldl pushDay []) ((now1 + tz * 1000) / msPerDay, cData)

/-- The summary, sort and trimming of the handler applied to given buckets. -/
def trimDays (bs : List Bucket) (todayEpoch : Int) : List DailyForecast :=
  (((sortBuckets bs).map summarize).filter (fun d => todayEpoch ≤ d.date)).take 5

/-- All dates that the handler builds are valid: every shifted slice timestamp
and the shifted clock reading. -/
def AllValid (list : List ForecastItem) (tz now : Int) : Prop :=
  (∀ i ∈ list, ValidTime ((i.dt + tz) * 1000)) ∧ ValidTime (now + tz * 1000)

/-- The value `r` is `null` for an empty list of samples, and otherwise the
greatest of the samples. -/
def IsMaxOf (vals : List ℚ) (r : Option ℚ) : Prop :=
  (vals = [] ∧ r = none) ∨ (∃ m, r = some m ∧ m ∈ vals ∧ ∀ v ∈ vals, v ≤ m)

/-- The value `r` is `null` for an empty list of samples, and otherwise the
least of the samples. -/
def IsMinOf (vals : List ℚ) (r : Option ℚ) : Prop :=
  (vals = [] ∧ r = none) ∨ (∃ m, r = some m ∧ m ∈ vals ∧ ∀ v ∈ vals, m ≤ v)

/-- The day number that a bucket key denotes. -/
def dayOfKey (k : DayKey) : Int := makeDay k.y k.m k.d

/-- The descriptions that the counter of the mode computation counts: all but
the property names of `Object.prototype`. -/
def counted (descs : List String) : List String :=
  descs.filter (fun d => decide (d ∉ objectPrototypeKeys))

/-- The loop invariant of the mode computation after the counted descriptions
`p`: `counts` holds the number of occurrences, `bestCount` is the highest count,
and `best` is the description whose count reached `bestCount` first. -/
structure ModeInv (s : ModeState) (p : List String) : Prop where
  counts_eq : ∀ k, s.counts k = p.count k
  empty : p = [] → s.best = "" ∧ s.bestCount = 0
  bound : ∀ k, p.count k ≤ s.bestCount
  first : p ≠ [] → p.count s.best = s.bestCount ∧
    ∃ q r, p = q ++ s.best :: r ∧ q.count s.best + 1 = s.bestCount ∧
      ∀ k, q.count k < s.bestCount

/-! ## Sample data for the worked instances -/

/-- A payload without temperature and description. -/
def noReading : Conditions := ⟨JsVal.undefined, JsVal.undefined, JsVal.undefined, none⟩

/-- A payload with `main.temp` and a description only. -/
def reading (temp : ℚ) (description : String) : Conditions :=
  ⟨JsVal.undefined, JsVal.undefined, JsVal.num temp, some description⟩

/-- The clock at 2025-11-06T00:00:00Z, in milliseconds. -/
def sampleNow : Int := 1762387200000

/-- Four slices over two days from 2025-11-06T00:00:00Z, offset 0: temperatures
10 and 20 on the first day, 5 and 15 on the second; the third slice is at
exactly the local midnight that starts the second day. -/
def sampleList : List ForecastItem :=
  [⟨1762387200, reading 10 "rain"⟩, ⟨1762430400, reading 20 "clear"⟩,
   ⟨1762473600, reading 5 "clear"⟩, ⟨1762516800, reading 15 "clear"⟩]

/-- The time value of 0070-01-02T00:00:00Z, in seconds. -/
def year70 : Int := -59958057600

/-! ## The normalizer of `/api/weather` -/

/-- The unary plus `+n` (ToNumber) followed by `Number.isFinite`: the finite
number that a provider value coerces to, or `none` when the coercion gives NaN
or an infinity. An absent field is NaN, `null` is 0, `true` is 1, `false` is 0;
the number of a text is that of `StringToNumber`, which rounds to a double and
is taken as the parameter `parse` (`none` when the text is not a finite
number). -/
def toFinite (parse : String → Option ℚ) (n : JsVal) : Option ℚ :=
  match n with
  | JsVal.undefined => none
  | JsVal.null => some 0
  | JsVal.bool true => some 1
  | JsVal.bool false => some 0
  | JsVal.num q => some q
  | JsVal.str s => parse s

/-- `Math.round`: the nearest integer, a tie going up, that is
`floor(q + 1/2)`, computed on numerator and denominator
(see `mathRound_eq_floor`). -/
def mathRound (q : ℚ) : Int := (2 * q.num + q.den) / (2 * q.den)

/-- `const num = (n) => (Number.isFinite(+n) ? +n : null)`. -/
def num (parse : String → Option ℚ) (n : JsVal) : Option ℚ :=
  match toFinite parse n with
  | some q => some q
  | none => none

/-- `const int = (n) => (Number.isFinite(+n) ? Math.round(+n) : null)`. -/
def int (parse : String → Option ℚ) (n : JsVal) : Option Int :=
  match toFinite parse n with
  | some q => some (mathRound q)
  | none => none

/-- The fields of the current-weather payload that the normalizer reads:
`main.temp`, `main.feels_like`, `main.humidity`, `wind.speed` and
`weather[0].id`. -/
structure WeatherPayload where
  temp : JsVal
  feels_like : JsVal
  humidity : JsVal
  speed : JsVal
  id : Option ℚ

/-- The numeric part of the `/api/weather` response and its `alerts`. -/
structure WeatherReading where
  temp : Option ℚ
  feels_like : Option ℚ
  humidity : Option Int
  wind_speed : Option ℚ
  alerts : List String

/-- The normalizer: `t`, `feels`, `humidity`, `windMS` and the advisories
computed from them. -/
def normalizeWeather (parse : String → Option ℚ) (data : WeatherPayload) : WeatherReading :=
  let t := num parse data.temp
  let feels := num parse data.feels_like
  let humidity := int parse data.humidity
  let windMS := num parse data.speed
  { temp := t, feels_like := feels, humidity := humidity, wind_speed := windMS,
    alerts := alerts t feels windMS data.id }

/-! ## Unit conversion of the client -/

/-- `function convertTemp(c, unit) { return unit === 'imperial' ? (c * 9) / 5 + 32 : c; }`
in exact arithmetic. -/
def convertTemp (c : ℚ) (unit : String) : ℚ :=
  if unit = "imperial" then (c * 9) / 5 + 32 else c

/-! ## Favorites of the client -/

/-- An entry of the stored `favorites` array: a legacy plain city name, or an
object with `name`, `lat` and `lon` (`JsVal.undefined` for a missing
coordinate). Storing and loading go through `JSON.stringify` and `JSON.parse`,
which give such entries back unchanged. -/
inductive Favorite where
  | legacy (name : String) : Favorite
  | place (name : String) (lat lon : JsVal) : Favorite
  deriving DecidableEq

/-- The value of `currentCoords` when it is not null. -/
structure Coords where
  lat : JsVal
  lon : JsVal
  deriving DecidableEq

/-- `typeof f !== 'string' && f.lat === entry.lat && f.lon === entry.lon`; on
the values of `JsVal` strict equality is equality. -/
def sameCoords (lat lon : JsVal) (f : Favorite) : Bool :=
  match f with
  | Favorite.legacy _ => false
  | Favorite.place _ flat flon => decide (flat = lat) && decide (flon = lon)

/-- `currentCityLabel || 'Saved Location'`. -/
def entryName (currentCityLabel : Option String) : String :=
  match currentCityLabel with
  | some s => if s = "" then "Saved Location" else s
  | none => "Saved Location"

/-- The stored favorites after `addCurrentToFavorites()`, from the stored list
`favs` (what `loadFavorites()` returns), `currentCoords` and `currentCityLabel`. -/
def addCurrentToFavorites (favs : List Favorite) (currentCoords : Option Coords)
    (currentCityLabel : Option String) : List Favorite :=
  match currentCoords with
  | none => favs
  | some coords =>
    let entry := Favorite.place (entryName currentCityLabel) coords.lat coords.lon
    if !(favs.any (sameCoords coords.lat coords.lon)) then favs ++ [entry] else favs

/-! ## Request routing of the server -/

/-- Truthiness of a query parameter, a string when present: it is given when
it is present and not the empty string. -/
def given (v : Option String) : Bool :=
  match v with
  | some s => decide (s ≠ "")
  | none => false

/-- What a handler does before it awaits the provider: it answers at once with
a status and an error message, or it requests the listed provider URLs. -/
inductive Routed where
  | reject (status : Nat) (error : String) : Routed
  | request (urls : List String) : Routed
  deriving DecidableEq

/-- The text of a query parameter inside a template literal. -/
def textOf (v : Option String) : String :=
  match v with
  | some s => s
  | none => "undefined"

/-- The selection of the provider URL in `app.get('/api/weather')`; `enc` is
`encodeURIComponent` and `api` the API key. -/
def weatherRoute (enc : String → String) (api : String) (city lat lon : Option String) :
    Routed :=
  if given city then
    Routed.request ["https://api.openweathermap.org/data/2.5/weather?q=" ++ enc (textOf city)
      ++ "&appid=" ++ api ++ "&units=metric"]
  else if given lat && given lon then
    Routed.request ["https://api.openweathermap.org/data/2.5/weather?lat=" ++ textOf lat
      ++ "&lon=" ++ textOf lon ++ "&appid=" ++ api ++ "&units=metric"]
  else Routed.reject 400 "Provide ?city= or ?lat=&lon="

/-- The selection of the two provider URLs (`fUrl`, `cUrl`) in
`app.get('/api/forecast')`. -/
def forecastRoute (enc : String → String) (api : String) (city lat lon : Option String) :
    Routed :=
  if given city then
    Routed.request
      ["https://api.openweathermap.org/data/2.5/forecast?q=" ++ enc (textOf city)
        ++ "&appid=" ++ api ++ "&units=metric",
       "https://api.openweathermap.org/data/2.5/weather?q=" ++ enc (textOf city)
        ++ "&appid=" ++ api ++ "&units=metric"]
  else if given lat && given lon then
    Routed.request
      ["https://api.openweathermap.org/data/2.5/forecast?lat=" ++ textOf lat
        ++ "&lon=" ++ textOf lon ++ "&appid=" ++ api ++ "&units=metric",
       "https://api.openweathermap.org/data/2.5/weather?lat=" ++ textOf lat
        ++ "&lon=" ++ textOf lon ++ "&appid=" ++ api ++ "&units=metric"]
  else Routed.reject 400 "Provide ?city= or ?lat=&lon="

/-! ## Geocoding limit -/

/-- The white space that `parseInt` skips (`StrWhiteSpaceChar`). -/
def isStrWhiteSpace (c : Char) : Bool :=
  c.toNat ∈ [9, 10, 11, 12, 13, 32, 160, 5760, 8192, 8193, 8194, 8195, 8196, 8197, 8198,
    8199, 8200, 8201, 8202, 8232, 8233, 8239, 8287, 12288, 65279]

/-- The value of a run of decimal digits. -/
def digitsValue (ds : List Char) : Nat :=
  ds.foldl (fun a c => 10 * a + (c.toNat - 48)) 0

/-- `parseInt(s, 10)` of a string: leading white space is skipped, an optional
sign is read, then the longest run of decimal digits; `none` is NaN (no digit).
The integer is exact; beyond 2^53 the engine returns the nearest double. -/
def parseInt10 (s : String) : Option Int :=
  let cs := s.toList.dropWhile isStrWhiteSpace
  let neg := cs.head? = some '-'
  let rest := if cs.head? = some '-' ∨ cs.head? = some '+' then cs.tail else cs
  let ds := rest.takeWhile Char.isDigit
  if ds = [] then none
  else if neg then some (-(digitsValue ds : Int)) else some (digitsValue ds : Int)

/-- `Math.min(x, 10)`, NaN for NaN. -/
def minTen (x : Option Int) : Option Int :=
  match x with
  | some n => some (min n 10)
  | none => none

/-- `a || b` on query parameters. -/
def orParam (a b : Option String) : Option String := if given a then a else b

/-- What `app.get('/api/geocode')` does before it awaits the provider: status
400, or a request to the geocoding endpoint with the text `q` and `limit`
(`none` is NaN). -/
inductive GeoRouted where
  | reject (status : Nat) (error : String) : GeoRouted
  | request (q : String) (limit : Option Int) : GeoRouted
  deriving DecidableEq

/-- The first lines of `app.get('/api/geocode')`:
`q = req.query.q || req.query.query`,
`limit = Math.min(parseInt(req.query.limit || '5', 10), 10)`,
`if (!q) return res.status(400).json({ error: 'Provide ?q=' })`. -/
def geocodeRoute (q query limit : Option String) : GeoRouted :=
  let qv := orParam q query
  let lim := minTen (parseInt10 (textOf (orParam limit (some "5"))))
  if !(given qv) then GeoRouted.reject 400 "Provide ?q=" else GeoRouted.request (textOf qv) lim

/-! ## Keyboard navigation of the suggestions -/

/-- The state that the `keydown` handler reads and writes: whether the
suggestion box exists and is shown, `suggestItems.length` and `suggestIndex`. -/
structure SuggestState where
  visible : Bool
  count : Nat
  suggestIndex : Int
  deriving DecidableEq

/-- The remainder operator `%` of JavaScript on integers: the sign follows the
dividend (a zero result of a negative dividend is -0, which the handler cannot
tell from 0). -/
def jsRem (a b : Int) : Int := Int.tmod a b

/-- The state after `hideSuggestions()`. -/
def hideSuggestions (_s : SuggestState) : SuggestState := ⟨false, 0, -1⟩

/-- The state after `chooseSuggestion(i)`: nothing happens when there is no
item at `i`, otherwise the box is hidden. -/
def chooseSuggestion (s : SuggestState) (i : Int) : SuggestState :=
  if 0 ≤ i ∧ i < s.count then hideSuggestions s else s

/-- The first `keydown` listener of `cityInput`. -/
def keydown (s : SuggestState) (key : String) : SuggestState :=
  if !s.visible || s.count == 0 then s
  else if key = "ArrowDown" then
    { s with suggestIndex := jsRem (s.suggestIndex + 1) s.count }
  else if key = "ArrowUp" then
    { s with suggestIndex := jsRem (s.suggestIndex - 1 + s.count) s.count }
  else if key = "Enter" then
    chooseSuggestion s (if s.suggestIndex ≥ 0 then s.suggestIndex else 0)
  else if key = "Escape" then hideSuggestions s
  else s
/-! ## Calendar lemmas -/

/-- The computed year is the one ECMAScript defines: the year whose first day is
at or before `day` and whose successor starts after it. -/
theorem yearFromDay_spec (day : Int) :
    dayFromYear (yearFromDay day) ≤ day ∧ day < dayFromYear (yearFromDay day + 1) := by
  unfold yearFromDay
  simp only
  split_ifs with h1 h2
  · refine ⟨?_, by simpa using h1⟩
    revert h1; unfold dayFromYear; intro h1; omega
  · refine ⟨by omega, ?_⟩
    revert h2; unfold dayFromYear; intro h2; omega
  · exact ⟨by omega, by omega⟩

theorem dayFromYear_strictMono {a b : Int} (h : a < b) : dayFromYear a < dayFromYear b := by
  unfold dayFromYear
  omega

/-- The computed year is the largest year that starts at or before `day`. -/
theorem yearFromDay_largest (day y : Int) (h : dayFromYear y ≤ day) : y ≤ yearFromDay day := by
  by_contra hc
  have h1 : yearFromDay day + 1 ≤ y := by omega
  have h2 := (yearFromDay_spec day).2
  rcases lt_or_eq_of_le h1 with h3 | h3
  · have := dayFromYear_strictMono h3
    omega
  · rw [h3] at h2
    omega

theorem dayFromYear_succ (y : Int) :
    dayFromYear (y + 1) = dayFromYear y + 365 + inLeapYear y := by
  unfold dayFromYear inLeapYear
  split_ifs <;> omega

theorem inLeapYear_range (y : Int) : 0 ≤ inLeapYear y ∧ inLeapYear y ≤ 1 := by
  unfold inLeapYear
  split_ifs <;> omega

theorem dayWithinYear_range (day : Int) :
    0 ≤ dayWithinYear day ∧ dayWithinYear day < 365 + inLeapYear (yearFromDay day) := by
  have h := yearFromDay_spec day
  rw [dayFromYear_succ] at h
  unfold dayWithinYear
  omega

theorem monthStart_0 (leap : Int) : monthStart 0 leap = 0 := by
  simp [monthStart]

theorem monthStart_1 (leap : Int) : monthStart 1 leap = 31 := by
  simp [monthStart]

theorem monthStart_2 (leap : Int) : monthStart 2 leap = 59 + leap := by
  simp [monthStart]

theorem monthStart_3 (leap : Int) : monthStart 3 leap = 90 + leap := by
  simp [monthStart]

theorem monthStart_4 (leap : Int) : monthStart 4 leap = 120 + leap := by
  simp [monthStart]

theorem monthStart_5 (leap : Int) : monthStart 5 leap = 151 + leap := by
  simp [monthStart]

theorem monthStart_6 (leap : Int) : monthStart 6 leap = 181 + leap := by
  simp [monthStart]

theorem monthStart_7 (leap : Int) : monthStart 7 leap = 212 + leap := by
  simp [monthStart]

theorem monthStart_8 (leap : Int) : monthStart 8 leap = 243 + leap := by
  simp [monthStart]

theorem monthStart_9 (leap : Int) : monthStart 9 leap = 273 + leap := by
  simp [monthStart]

theorem monthStart_10 (leap : Int) : monthStart 10 leap = 304 + leap := by
  simp [monthStart]

theorem monthStart_11 (leap : Int) : monthStart 11 leap = 334 + leap := by
  simp [monthStart]

/-- The month table and the start-of-month table agree: the month is in 0..11,
and a day within the year lies at most 30 days after the start of its month. -/
theorem month_table (dwy leap : Int) :
    (0 ≤ monthOfDayWithinYear dwy leap ∧ monthOfDayWithinYear dwy leap ≤ 11) ∧
    (0 ≤ dwy → dwy < 365 + leap → 0 ≤ leap → leap ≤ 1 →
      0 ≤ dwy - monthStart (monthOfDayWithinYear dwy leap) leap ∧
      dwy - monthStart (monthOfDayWithinYear dwy leap) leap ≤ 30) := by
  unfold monthOfDayWithinYear
  by_cases h0 : dwy < 31
  · rw [if_pos h0, monthStart_0]
    exact ⟨by omega, by omega⟩
  · rw [if_neg h0]
    by_cases h1 : dwy < 59 + leap
    · rw [if_pos h1, monthStart_1]
      exact ⟨by omega, by omega⟩
    · rw [if_neg h1]
      by_cases h2 : dwy < 90 + leap
      · rw [if_pos h2, monthStart_2]
        exact ⟨by omega, by omega⟩
      · rw [if_neg h2]
        by_cases h3 : dwy < 120 + leap
        · rw [if_pos h3, monthStart_3]
          exact ⟨by omega, by omega⟩
        · rw [if_neg h3]
          by_cases h4 : dwy < 151 + leap
          · rw [if_pos h4, monthStart_4]
            exact ⟨by omega, by omega⟩
          · rw [if_neg h4]
            by_cases h5 : dwy < 181 + leap
            · rw [if_pos h5, monthStart_5]
              exact ⟨by omega, by omega⟩
            · rw [if_neg h5]
              by_cases h6 : dwy < 212 + leap
              · rw [if_pos h6, monthStart_6]
                exact ⟨by omega, by omega⟩
              · rw [if_neg h6]
                by_cases h7 : dwy < 243 + leap
                · rw [if_pos h7, monthStart_7]
                  exact ⟨by omega, by omega⟩
                · rw [if_neg h7]
                  by_cases h8 : dwy < 273 + leap
                  · rw [if_pos h8, monthStart_8]
                    exact ⟨by omega, by omega⟩
                  · rw [if_neg h8]
                    by_cases h9 : dwy < 304 + leap
                    · rw [if_pos h9, monthStart_9]
                      exact ⟨by omega, by omega⟩
                    · rw [if_neg h9]
                      by_cases h10 : dwy < 334 + leap
                      · rw [if_pos h10, monthStart_10]
                        exact ⟨by omega, by omega⟩
                      · rw [if_neg h10]
                        rw [monthStart_11]
                        exact ⟨by omega, by omega⟩

theorem monthStart_range (m leap : Int) (h0 : 0 ≤ leap) (h1 : leap ≤ 1) :
    0 ≤ monthStart m leap ∧ monthStart m leap ≤ 335 := by
  unfold monthStart
  by_cases h0m : m = 0
  · rw [if_pos h0m]
    exact ⟨by omega, by omega⟩
  · rw [if_neg h0m]
    by_cases h1m : m = 1
    · rw [if_pos h1m]
      exact ⟨by omega, by omega⟩
    · rw [if_neg h1m]
      by_cases h2m : m = 2
      · rw [if_pos h2m]
        exact ⟨by omega, by omega⟩
      · rw [if_neg h2m]
        by_cases h3m : m = 3
        · rw [if_pos h3m]
          exact ⟨by omega, by omega⟩
        · rw [if_neg h3m]
          by_cases h4m : m = 4
          · rw [if_pos h4m]
            exact ⟨by omega, by omega⟩
          · rw [if_neg h4m]
            by_cases h5m : m = 5
            · rw [if_pos h5m]
              exact ⟨by omega, by omega⟩
            · rw [if_neg h5m]
              by_cases h6m : m = 6
              · rw [if_pos h6m]
                exact ⟨by omega, by omega⟩
              · rw [if_neg h6m]
                by_cases h7m : m = 7
                · rw [if_pos h7m]
                  exact ⟨by omega, by omega⟩
                · rw [if_neg h7m]
                  by_cases h8m : m = 8
                  · rw [if_pos h8m]
                    exact ⟨by omega, by omega⟩
                  · rw [if_neg h8m]
                    by_cases h9m : m = 9
                    · rw [if_pos h9m]
                      exact ⟨by omega, by omega⟩
                    · rw [if_neg h9m]
                      by_cases h10m : m = 10
                      · rw [if_pos h10m]
                        exact ⟨by omega, by omega⟩
                      · rw [if_neg h10m]
                        exact ⟨by omega, by omega⟩

theorem monthFromDay_range (day : Int) : 0 ≤ monthFromDay day ∧ monthFromDay day ≤ 11 :=
  (month_table _ _).1

theorem dateFromDay_range (day : Int) : 1 ≤ dateFromDay day ∧ dateFromDay day ≤ 31 := by
  have h := (month_table (dayWithinYear day) (inLeapYear (yearFromDay day))).2
    (dayWithinYear_range day).1 (dayWithinYear_range day).2
    (inLeapYear_range _).1 (inLeapYear_range _).2
  unfold dateFromDay monthFromDay
  omega

/-- Reading the calendar date of a day and rebuilding the day number from it
gives the day back. -/
theorem makeDay_roundtrip (day : Int) :
    makeDay (yearFromDay day) (monthFromDay day) (dateFromDay day) = day := by
  have hm := monthFromDay_range day
  have h1 : monthFromDay day / 12 = 0 := by omega
  have h2 : monthFromDay day % 12 = monthFromDay day := by omega
  unfold makeDay
  simp only [h1, h2, add_zero]
  unfold dateFromDay dayWithinYear
  omega

/-- Two days with the same calendar date are the same day: the key of a bucket
determines its local day. -/
theorem keyOfDay_injective {a b : Int} (h : keyOfDay a = keyOfDay b) : a = b := by
  have ha := makeDay_roundtrip a
  have hb := makeDay_roundtrip b
  unfold keyOfDay at h
  injection h with hy hm hd
  rw [hy, hm, hd] at ha
  omega

theorem epochOfDay_modern {day : Int} (h : ¬ TwoDigitYear day) :
    epochOfDay day = day * msPerDay := by
  unfold TwoDigitYear at h
  unfold epochOfDay
  rw [if_neg h, makeDay_roundtrip]

/-- For a year from 0 to 99 the handler's `epochDay` is the midnight of the same
month and day in the year 1900 + year. -/
theorem epochOfDay_twoDigit_range {day : Int} (h : TwoDigitYear day) :
    -25567 * msPerDay ≤ epochOfDay day ∧ epochOfDay day ≤ 10957 * msPerDay := by
  unfold TwoDigitYear at h
  have hm := monthFromDay_range day
  have hd := dateFromDay_range day
  have h1 : monthFromDay day / 12 = 0 := by omega
  have h2 : monthFromDay day % 12 = monthFromDay day := by omega
  have hl := inLeapYear_range (1900 + yearFromDay day)
  have hs := monthStart_range (monthFromDay day) (inLeapYear (1900 + yearFromDay day)) hl.1 hl.2
  unfold epochOfDay
  rw [if_pos h]
  unfold makeDay
  simp only [h1, h2, add_zero]
  unfold dayFromYear msPerDay
  omega

/-! ## Dates of the handler -/

theorem timeClip_valid {v : Int} (h : ValidTime v) : timeClip v = some v := by
  unfold timeClip
  exact if_pos h

theorem timeClip_invalid {v : Int} (h : ¬ ValidTime v) : timeClip v = none := by
  unfold timeClip
  exact if_neg h

theorem epochOfDay_valid_of_day {day : Int} (h : -100000000 ≤ day ∧ day ≤ 100000000) :
    ValidTime (epochOfDay day) := by
  by_cases h2 : TwoDigitYear day
  · have h3 := epochOfDay_twoDigit_range h2
    unfold ValidTime maxTime
    unfold msPerDay at h3
    omega
  · rw [epochOfDay_modern h2]
    unfold ValidTime maxTime msPerDay
    omega

theorem epochOfDay_valid {ms : Int} (h : ValidTime ms) :
    ValidTime (epochOfDay (ms / msPerDay)) := by
  apply epochOfDay_valid_of_day
  unfold ValidTime maxTime at h
  unfold msPerDay
  omega

/-- The key and `epochDay` of a valid shifted timestamp. -/
theorem bucketOf_valid {ms : Int} (h : ValidTime ms) :
    bucketOf ms = some (keyOfDay (ms / msPerDay), epochOfDay (ms / msPerDay)) := by
  have h2 := timeClip_valid (epochOfDay_valid h)
  unfold epochOfDay at h2
  unfold bucketOf newDate
  rw [timeClip_valid h]
  simp only [dateUTC, getUTCFullYear, getUTCMonth, getUTCDate, dayOfTime, h2]
  rfl

theorem bucketOf_invalid {ms : Int} (h : ¬ ValidTime ms) : bucketOf ms = none := by
  unfold bucketOf newDate
  rw [timeClip_invalid h]

theorem pushAt_valid {ms : Int} (h : ValidTime ms) (bs : List Bucket) (c : Conditions) :
    pushAt bs ms c = some (pushDay bs (ms / msPerDay, c)) := by
  unfold pushAt
  rw [bucketOf_valid h]
  rfl

theorem pushAt_invalid {ms : Int} (h : ¬ ValidTime ms) (bs : List Bucket) (c : Conditions) :
    pushAt bs ms c = none := by
  unfold pushAt
  rw [bucketOf_invalid h]

theorem foldlM_addItem_valid (tz : Int) (list : List ForecastItem)
    (h : ∀ i ∈ list, ValidTime ((i.dt + tz) * 1000)) (init : List Bucket) :
    list.foldlM (addItem tz) init = some ((sliceEntries tz list).foldl pushDay init) := by
  induction list generalizing init with
  | nil => rfl
  | cons i rest ih =>
    have hi := h i (List.mem_cons_self _ _)
    have hr : ∀ j ∈ rest, ValidTime ((j.dt + tz) * 1000) :=
      fun j hj => h j (List.mem_cons_of_mem _ hj)
    rw [List.foldlM_cons]
    unfold addItem
    rw [pushAt_valid hi]
    simp only [Option.bind_eq_bind, Option.some_bind]
    exact ih hr _

theorem foldlM_addItem_invalid (tz : Int) (list : List ForecastItem)
    (h : ∃ i ∈ list, ¬ ValidTime ((i.dt + tz) * 1000)) (init : List Bucket) :
    list.foldlM (addItem tz) init = none := by
  induction list generalizing init with
  | nil => obtain ⟨i, hi, _⟩ := h; cases hi
  | cons i rest ih =>
    rw [List.foldlM_cons]
    by_cases hi : ValidTime ((i.dt + tz) * 1000)
    · obtain ⟨j, hj, hjv⟩ := h
      have hjr : j ∈ rest := by
        rcases List.mem_cons.mp hj with rfl | hjr
        · exact absurd hi hjv
        · exact hjr
      unfold addItem
      rw [pushAt_valid hi]
      simp only [Option.bind_eq_bind, Option.some_bind]
      exact ih ⟨j, hjr, hjv⟩ _
    · unfold addItem
      rw [pushAt_invalid hi]
      rfl

/-! ## The grouping invariant -/

theorem pushInto_keys (bs : List Bucket) (k : DayKey) (ep : Int) (c : Conditions) :
    (pushInto bs k ep c).map Bucket.key =
      if k ∈ bs.map Bucket.key then bs.map Bucket.key else bs.map Bucket.key ++ [k] := by
  have hkey : ∀ l : List Bucket,
      (l.map (fun b => if b.key = k then b.push c else b)).map Bucket.key = l.map Bucket.key := by
    intro l
    rw [List.map_map]
    apply List.map_congr_left
    intro b _
    simp only [Function.comp]
    split_ifs <;> rfl
  unfold pushInto
  simp only
  rw [hkey]
  by_cases h : k ∈ bs.map Bucket.key
  · have h2 : (bs.any (fun b => decide (b.key = k))) = true := by
      obtain ⟨b, hb, hbk⟩ := List.mem_map.mp h
      exact List.any_eq_true.mpr ⟨b, hb, by simpa using hbk⟩
    rw [if_pos h2, if_pos h]
  · have h2 : ¬ (bs.any (fun b => decide (b.key = k))) = true := by
      intro h3
      obtain ⟨b, hb, hbk⟩ := List.any_eq_true.mp h3
      exact h (List.mem_map.mpr ⟨b, hb, by simpa using hbk⟩)
    rw [if_neg h2, if_neg h]
    simp

theorem mem_pushInto {bs : List Bucket} {k : DayKey} {ep : Int} {c : Conditions}
    {x : Bucket} (hx : x ∈ pushInto bs k ep c) :
    (∃ b ∈ bs, b.key ≠ k ∧ x = b) ∨ (∃ b ∈ bs, b.key = k ∧ x = b.push c) ∨
      ((∀ b ∈ bs, b.key ≠ k) ∧ x = (Bucket.mk k [] [] [] ep).push c) := by
  unfold pushInto at hx
  simp only at hx
  obtain ⟨b, hb, hbx⟩ := List.mem_map.mp hx
  by_cases hany : (bs.any (fun b => decide (b.key = k))) = true
  · rw [if_pos hany] at hb
    by_cases hk : b.key = k
    · rw [if_pos hk] at hbx
      exact Or.inr (Or.inl ⟨b, hb, hk, hbx.symm⟩)
    · rw [if_neg hk] at hbx
      exact Or.inl ⟨b, hb, hk, hbx.symm⟩
  · rw [if_neg hany] at hb
    have hno : ∀ b ∈ bs, b.key ≠ k := by
      intro b' hb' hbk
      exact hany (List.any_eq_true.mpr ⟨b', hb', by simpa using hbk⟩)
    rcases List.mem_append.mp hb with hb | hb
    · have hk := hno b hb
      rw [if_neg hk] at hbx
      exact Or.inl ⟨b, hb, hk, hbx.symm⟩
    · have hb2 : b = Bucket.mk k [] [] [] ep := by simpa using hb
      subst hb2
      rw [if_pos rfl] at hbx
      exact Or.inr (Or.inr ⟨hno, hbx.symm⟩)

theorem filterMap_day_snoc {β : Type} (es : List (Int × Conditions)) (e : Int × Conditions)
    (day : Int) (f : Conditions → Option β) :
    (es ++ [e]).filterMap (fun x => if x.1 = day then f x.2 else none) =
      es.filterMap (fun x => if x.1 = day then f x.2 else none) ++
        (if e.1 = day then (f e.2).toList else []) := by
  rw [List.filterMap_append]
  congr 1
  by_cases h : e.1 = day
  · simp only [h, if_true, List.filterMap_cons, List.filterMap_nil]
    cases f e.2 <;> rfl
  · simp only [h, if_false, List.filterMap_cons, List.filterMap_nil]

theorem filterMap_day_absent {β : Type} (es : List (Int × Conditions)) (day : Int)
    (f : Conditions → Option β) (h : ∀ e ∈ es, e.1 ≠ day) :
    es.filterMap (fun x => if x.1 = day then f x.2 else none) = [] := by
  induction es with
  | nil => rfl
  | cons e rest ih =>
    have he := h e (List.mem_cons_self _ _)
    rw [List.filterMap_cons]
    simp only [he, if_false]
    exact ih (fun x hx => h x (List.mem_cons_of_mem _ hx))

theorem grouped_nil : Grouped [] [] :=
  ⟨List.nodup_nil, fun _ h => (by cases h), fun _ h => (by cases h)⟩

theorem grouped_push {es : List (Int × Conditions)} {bs : List Bucket} (h : Grouped es bs)
    (e : Int × Conditions) : Grouped (es ++ [e]) (pushDay bs e) := by
  have hkeys := pushInto_keys bs (keyOfDay e.1) (epochOfDay e.1) e.2
  refine ⟨?_, ?_, ?_⟩
  · unfold pushDay
    rw [hkeys]
    split_ifs with hk
    · exact h.nodup
    · exact List.Nodup.append h.nodup (List.nodup_singleton _)
        (by
          intro a ha ha2
          have : a = keyOfDay e.1 := by simpa using ha2
          subst this
          exact hk ha)
  · intro x hx
    have hmem : keyOfDay x.1 ∈ (pushDay bs e).map Bucket.key := by
      unfold pushDay
      rw [hkeys]
      rcases List.mem_append.mp hx with hx | hx
      · obtain ⟨b, hb, hbk⟩ := h.complete x hx
        have : keyOfDay x.1 ∈ bs.map Bucket.key := List.mem_map.mpr ⟨b, hb, hbk⟩
        split_ifs
        · exact this
        · exact List.mem_append_left _ this
      · have hxe : x = e := by simpa using hx
        subst hxe
        split_ifs with hk
        · exact hk
        · exact List.mem_append_right _ (List.mem_singleton_self _)
    obtain ⟨b, hb, hbk⟩ := List.mem_map.mp hmem
    exact ⟨b, hb, hbk⟩
  · intro x hx
    unfold pushDay at hx
    rcases mem_pushInto hx with ⟨b, hb, hne, rfl⟩ | ⟨b, hb, heq, rfl⟩ | ⟨hno, rfl⟩
    · obtain ⟨day, hday, hk, hep, hmax, hmin, hdesc⟩ := h.sound x hb
      have hd : ¬ e.1 = day := by
        intro hd
        apply hne
        rw [hk, hd]
      refine ⟨day, ?_, hk, hep, ?_, ?_, ?_⟩
      · rw [List.map_append]; exact List.mem_append_left _ hday
      · rw [filterMap_day_snoc, if_neg hd, List.append_nil]; exact hmax
      · rw [filterMap_day_snoc, if_neg hd, List.append_nil]; exact hmin
      · rw [filterMap_day_snoc, if_neg hd, List.append_nil]; exact hdesc
    · obtain ⟨day, hday, hk, hep, hmax, hmin, hdesc⟩ := h.sound b hb
      have hd : e.1 = day := keyOfDay_injective (by rw [← heq, hk])
      refine ⟨day, ?_, hk, hep, ?_, ?_, ?_⟩
      · rw [List.map_append]; exact List.mem_append_left _ hday
      · rw [filterMap_day_snoc, if_pos hd, ← hmax]; rfl
      · rw [filterMap_day_snoc, if_pos hd, ← hmin]; rfl
      · rw [filterMap_day_snoc, if_pos hd, ← hdesc]; rfl
    · have habs : ∀ x ∈ es, x.1 ≠ e.1 := by
        intro x hx hxe
        obtain ⟨b, hb, hbk⟩ := h.complete x hx
        exact hno b hb (by rw [hbk, hxe])
      refine ⟨e.1, ?_, rfl, rfl, ?_, ?_, ?_⟩
      · rw [List.map_append]; exact List.mem_append_right _ (by simp)
      · rw [filterMap_day_snoc, if_pos rfl, filterMap_day_absent es e.1 _ habs]; rfl
      · rw [filterMap_day_snoc, if_pos rfl, filterMap_day_absent es e.1 _ habs]; rfl
      · rw [filterMap_day_snoc, if_pos rfl, filterMap_day_absent es e.1 _ habs]; rfl

theorem grouped_foldl {es0 : List (Int × Conditions)} {bs0 : List Bucket}
    (h : Grouped es0 bs0) (es : List (Int × Conditions)) :
    Grouped (es0 ++ es) (es.foldl pushDay bs0) := by
  induction es generalizing es0 bs0 with
  | nil => simpa using h
  | cons e rest ih =>
    have := ih (grouped_push h e)
    simpa [List.append_assoc] using this

/-! ## The aggregation in closed form -/

theorem forecast_valid {list : List ForecastItem} {tz now : Int}
    (h : AllValid list tz now) (cData : Conditions) :
    forecast list cData tz now =
      some (trimDays (allBuckets list cData tz now) (epochOfDay (clockDay tz now))) := by
  obtain ⟨hl, h1⟩ := h
  unfold forecast forecastDays groupItems
  rw [foldlM_addItem_valid tz list hl]
  simp only [pushAt_valid h1, bucketOf_valid h1]
  rfl

theorem forecast_invalid {list : List ForecastItem} {tz now : Int}
    (h : ¬ AllValid list tz now) (cData : Conditions) :
    forecast list cData tz now = none := by
  unfold forecast forecastDays groupItems
  by_cases hl : ∀ i ∈ list, ValidTime ((i.dt + tz) * 1000)
  · rw [foldlM_addItem_valid tz list hl]
    have h1 : ¬ ValidTime (now + tz * 1000) := fun h1 => h ⟨hl, h1⟩
    simp only [pushAt_invalid h1]
  · have hl2 : ∃ i ∈ list, ¬ ValidTime ((i.dt + tz) * 1000) := by
      by_contra hc
      apply hl
      intro i hi
      by_contra hv
      exact hc ⟨i, hi, hv⟩
    rw [foldlM_addItem_invalid tz list hl2]

/-- The aggregation returns a list exactly when every date it builds is valid,
and the list is then the trimmed summary of the grouped buckets. -/
theorem forecast_some {list : List ForecastItem} {cData : Conditions} {tz now : Int}
    {days : List DailyForecast} (h : forecast list cData tz now = some days) :
    AllValid list tz now ∧
      days = trimDays (allBuckets list cData tz now) (epochOfDay (clockDay tz now)) := by
  by_cases hv : AllValid list tz now
  · rw [forecast_valid hv] at h
    exact ⟨hv, (Option.some.inj h).symm⟩
  · rw [forecast_invalid hv] at h
    cases h

theorem allBuckets_grouped (list : List ForecastItem) (cData : Conditions) (tz now1 : Int) :
    Grouped (allEntries list cData tz now1) (allBuckets list cData tz now1) := by
  have h := (grouped_foldl grouped_nil (sliceEntries tz list))
  simp only [List.nil_append] at h
  exact grouped_push h _

/-! ## Sorting and trimming -/

theorem sortBuckets_perm (bs : List Bucket) : (sortBuckets bs).Perm bs :=
  List.perm_insertionSort _ bs

theorem sortBuckets_sorted (bs : List Bucket) :
    ((sortBuckets bs).map Bucket.epochDay).Pairwise (fun a b => a ≤ b) := by
  haveI : IsTotal Bucket (fun a b => a.epochDay ≤ b.epochDay) :=
    ⟨fun a b => le_total a.epochDay b.epochDay⟩
  haveI : IsTrans Bucket (fun a b => a.epochDay ≤ b.epochDay) :=
    ⟨fun a b c hab hbc => le_trans hab hbc⟩
  have h := List.sorted_insertionSort (fun a b : Bucket => a.epochDay ≤ b.epochDay) bs
  rw [List.pairwise_map]
  exact h

theorem trimDays_dates_sublist (bs : List Bucket) (todayEpoch : Int) :
    ((trimDays bs todayEpoch).map DailyForecast.date).Sublist
      ((sortBuckets bs).map Bucket.epochDay) := by
  unfold trimDays
  have h1 : ((sortBuckets bs).map summarize).map DailyForecast.date
      = (sortBuckets bs).map Bucket.epochDay := by
    rw [List.map_map]; rfl
  rw [← h1]
  exact ((List.take_sublist _ _).trans (List.filter_sublist _)).map _

theorem mem_trimDays {bs : List Bucket} {todayEpoch : Int} {d : DailyForecast}
    (h : d ∈ trimDays bs todayEpoch) :
    todayEpoch ≤ d.date ∧ ∃ b ∈ bs, d = summarize b := by
  unfold trimDays at h
  have h2 := List.mem_of_mem_take h
  rw [List.mem_filter] at h2
  obtain ⟨b, hb, hbd⟩ := List.mem_map.mp h2.1
  exact ⟨by simpa using h2.2, b, (sortBuckets_perm bs).mem_iff.mp hb, hbd.symm⟩

/-! ## Local days of the entries -/

theorem shifted_day_eq (x : Int) : x * 1000 / msPerDay = x / 86400 := by
  unfold msPerDay
  omega

theorem allEntries_days (list : List ForecastItem) (cData : Conditions) (tz now : Int) :
    (allEntries list cData tz now).map Prod.fst = localDays list tz now := by
  unfold allEntries localDays sliceEntries clockDay
  rw [List.map_append, List.map_map]
  congr 1
  apply List.map_congr_left
  intro i _
  exact shifted_day_eq _

theorem dayOfKey_keyOfDay (day : Int) : dayOfKey (keyOfDay day) = day :=
  makeDay_roundtrip day

/-- In the buckets of the handler, every bucket belongs to one local day of the
entries, and without two-digit years its `epochDay` is the midnight of that day. -/
theorem bucket_day {list : List ForecastItem} {cData : Conditions} {tz now : Int}
    {b : Bucket} (hb : b ∈ allBuckets list cData tz now) :
    dayOfKey b.key ∈ localDays list tz now ∧ b.key = keyOfDay (dayOfKey b.key) ∧
      b.epochDay = epochOfDay (dayOfKey b.key) := by
  obtain ⟨day, hday, hk, hep, -⟩ := (allBuckets_grouped list cData tz now).sound b hb
  rw [allEntries_days] at hday
  rw [hk, dayOfKey_keyOfDay]
  exact ⟨hday, rfl, hep⟩

theorem bucket_epoch_modern {list : List ForecastItem} {cData : Conditions} {tz now : Int}
    (hy : ∀ day ∈ localDays list tz now, ¬ TwoDigitYear day)
    {b : Bucket} (hb : b ∈ allBuckets list cData tz now) :
    b.epochDay = dayOfKey b.key * msPerDay := by
  obtain ⟨h1, -, h3⟩ := bucket_day hb
  rw [h3, epochOfDay_modern (hy _ h1)]

theorem buckets_nodup (list : List ForecastItem) (cData : Conditions) (tz now : Int) :
    (allBuckets list cData tz now).Nodup :=
  List.Nodup.of_map _ (allBuckets_grouped list cData tz now).nodup

theorem bucket_eq_of_key {list : List ForecastItem} {cData : Conditions} {tz now : Int}
    {a b : Bucket} (ha : a ∈ allBuckets list cData tz now)
    (hb : b ∈ allBuckets list cData tz now) (h : a.key = b.key) : a = b :=
  List.inj_on_of_nodup_map (allBuckets_grouped list cData tz now).nodup ha hb h

theorem epochs_nodup_modern {list : List ForecastItem} {cData : Conditions} {tz now : Int}
    (hy : ∀ day ∈ localDays list tz now, ¬ TwoDigitYear day) :
    ((allBuckets list cData tz now).map Bucket.epochDay).Nodup := by
  apply List.Nodup.map_on _ (buckets_nodup list cData tz now)
  intro a ha b hb hab
  rw [bucket_epoch_modern hy ha, bucket_epoch_modern hy hb] at hab
  have hd : dayOfKey a.key = dayOfKey b.key := by
    unfold msPerDay at hab
    omega
  apply bucket_eq_of_key ha hb
  rw [(bucket_day ha).2.1, (bucket_day hb).2.1, hd]

/-! ## C1: dates strictly increasing -/

theorem bucket_days_perm (list : List ForecastItem) (cData : Conditions) (tz now : Int) :
    ((allBuckets list cData tz now).map (fun b => dayOfKey b.key)).Perm
      (localDays list tz now).dedup := by
  have hg := allBuckets_grouped list cData tz now
  apply (List.perm_ext_iff_of_nodup ?_ (List.nodup_dedup _)).mpr
  · intro day
    rw [List.mem_dedup]
    constructor
    · intro hd
      obtain ⟨b, hb, rfl⟩ := List.mem_map.mp hd
      exact (bucket_day hb).1
    · intro hd
      rw [← allEntries_days list cData tz now] at hd
      obtain ⟨e, he, rfl⟩ := List.mem_map.mp hd
      obtain ⟨b, hb, hbk⟩ := hg.complete e he
      exact List.mem_map.mpr ⟨b, hb, by rw [hbk, dayOfKey_keyOfDay]⟩
  · have : (allBuckets list cData tz now).map (fun b => dayOfKey b.key)
        = ((allBuckets list cData tz now).map Bucket.key).map dayOfKey := by
      rw [List.map_map]; rfl
    rw [this]
    apply List.Nodup.map_on _ hg.nodup
    intro k1 hk1 k2 hk2 h12
    obtain ⟨b1, hb1, rfl⟩ := List.mem_map.mp hk1
    obtain ⟨b2, hb2, rfl⟩ := List.mem_map.mp hk2
    rw [(bucket_day hb1).2.1, (bucket_day hb2).2.1, h12]

theorem trimDays_length (bs : List Bucket) (todayEpoch : Int) :
    (trimDays bs todayEpoch).length =
      min ((bs.filter (fun b => decide (todayEpoch ≤ b.epochDay))).length) 5 := by
  unfold trimDays
  rw [List.length_take, List.filter_map, List.length_map]
  have hp := (sortBuckets_perm bs).filter (fun b => decide (todayEpoch ≤ b.epochDay))
  have : ((fun d : DailyForecast => decide (todayEpoch ≤ d.date)) ∘ summarize)
      = (fun b : Bucket => decide (todayEpoch ≤ b.epochDay)) := rfl
  rw [this, hp.length_eq, min_comm]

theorem today_bucket (list : List ForecastItem) (cData : Conditions) (tz now : Int) :
    ∃ b ∈ allBuckets list cData tz now, b.epochDay = epochOfDay (clockDay tz now) := by
  have hg := allBuckets_grouped list cData tz now
  have he : (clockDay tz now, cData) ∈ allEntries list cData tz now := by
    unfold allEntries
    exact List.mem_append_right _ (List.mem_singleton_self _)
  obtain ⟨b, hb, hbk⟩ := hg.complete _ he
  refine ⟨b, hb, ?_⟩
  rw [(bucket_day hb).2.2, hbk, dayOfKey_keyOfDay]

theorem trimDays_head (bs : List Bucket) (todayEpoch : Int)
    (h : ∃ b ∈ bs, b.epochDay = todayEpoch) :
    ∃ first rest, trimDays bs todayEpoch = first :: rest ∧ first.date = todayEpoch := by
  obtain ⟨b, hb, hbe⟩ := h
  have hsorted : (((sortBuckets bs).map summarize).filter
      (fun d => decide (todayEpoch ≤ d.date))).Pairwise (fun a c => a.date ≤ c.date) := by
    have h1 := sortBuckets_sorted bs
    rw [List.pairwise_map] at h1
    have h2 : ((sortBuckets bs).map summarize).Pairwise (fun a c => a.date ≤ c.date) := by
      rw [List.pairwise_map]
      exact h1
    exact h2.sublist (List.filter_sublist _)
  have hmem : summarize b ∈ ((sortBuckets bs).map summarize).filter
      (fun d => decide (todayEpoch ≤ d.date)) := by
    rw [List.mem_filter]
    refine ⟨List.mem_map.mpr ⟨b, (sortBuckets_perm bs).mem_iff.mpr hb, rfl⟩, ?_⟩
    have : (summarize b).date = todayEpoch := hbe
    simp [this]
  unfold trimDays
  cases hf : ((sortBuckets bs).map summarize).filter
      (fun d => decide (todayEpoch ≤ d.date)) with
  | nil => rw [hf] at hmem; cases hmem
  | cons first rest =>
    rw [hf] at hmem hsorted
    refine ⟨first, rest.take 4, rfl, ?_⟩
    have hge : todayEpoch ≤ first.date := by
      have : first ∈ ((sortBuckets bs).map summarize).filter
          (fun d => decide (todayEpoch ≤ d.date)) := by rw [hf]; exact List.mem_cons_self _ _
      simpa using (List.mem_filter.mp this).2
    have hle : first.date ≤ todayEpoch := by
      rcases List.mem_cons.mp hmem with heq | hin
      · rw [← heq]; exact le_of_eq hbe
      · have := (List.pairwise_cons.mp hsorted).1 _ hin
        exact le_trans this (le_of_eq hbe)
    exact le_antisymm hle hge

theorem foldl_max_spec (xs : List ℚ) (x : ℚ) :
    xs.foldl max x ∈ x :: xs ∧ ∀ v ∈ x :: xs, v ≤ xs.foldl max x := by
  induction xs generalizing x with
  | nil => exact ⟨List.mem_cons_self _ _, fun v hv => by simp at hv; exact le_of_eq hv⟩
  | cons y rest ih =>
    obtain ⟨hmem, hle⟩ := ih (max x y)
    rw [List.foldl_cons]
    constructor
    · rcases List.mem_cons.mp hmem with h | h
      · rw [h]
        rcases max_choice x y with h2 | h2 <;> rw [h2] <;> simp
      · exact List.mem_cons_of_mem _ (List.mem_cons_of_mem _ h)
    · intro v hv
      have hm := hle (max x y) (List.mem_cons_self _ _)
      rcases List.mem_cons.mp hv with h | h
      · rw [h]; exact le_trans (le_max_left x y) hm
      · rcases List.mem_cons.mp h with h | h
        · rw [h]; exact le_trans (le_max_right x y) hm
        · exact hle v (List.mem_cons_of_mem _ h)

theorem foldl_min_spec (xs : List ℚ) (x : ℚ) :
    xs.foldl min x ∈ x :: xs ∧ ∀ v ∈ x :: xs, xs.foldl min x ≤ v := by
  induction xs generalizing x with
  | nil => exact ⟨List.mem_cons_self _ _, fun v hv => by simp at hv; exact le_of_eq hv.symm⟩
  | cons y rest ih =>
    obtain ⟨hmem, hle⟩ := ih (min x y)
    rw [List.foldl_cons]
    constructor
    · rcases List.mem_cons.mp hmem with h | h
      · rw [h]
        rcases min_choice x y with h2 | h2 <;> rw [h2] <;> simp
      · exact List.mem_cons_of_mem _ (List.mem_cons_of_mem _ h)
    · intro v hv
      have hm := hle (min x y) (List.mem_cons_self _ _)
      rcases List.mem_cons.mp hv with h | h
      · rw [h]; exact le_trans hm (min_le_left x y)
      · rcases List.mem_cons.mp h with h | h
        · rw [h]; exact le_trans hm (min_le_right x y)
        · exact hle v (List.mem_cons_of_mem _ h)

theorem maxOrNull_spec (vals : List ℚ) : IsMaxOf vals (maxOrNull vals) := by
  cases vals with
  | nil => exact Or.inl ⟨rfl, rfl⟩
  | cons x xs => exact Or.inr ⟨_, rfl, (foldl_max_spec xs x).1, (foldl_max_spec xs x).2⟩

theorem minOrNull_spec (vals : List ℚ) : IsMinOf vals (minOrNull vals) := by
  cases vals with
  | nil => exact Or.inl ⟨rfl, rfl⟩
  | cons x xs => exact Or.inr ⟨_, rfl, (foldl_min_spec xs x).1, (foldl_min_spec xs x).2⟩

theorem sliceEntries_filterMap {β : Type} (tz : Int) (list : List ForecastItem) (day : Int)
    (f : Conditions → Option β) :
    (sliceEntries tz list).filterMap (fun e => if e.1 = day then f e.2 else none) =
      (list.filter (fun i => decide (sliceDay tz i = day))).filterMap (fun i => f i.cond) := by
  induction list with
  | nil => rfl
  | cons i rest ih =>
    have hd : (i.dt + tz) * 1000 / msPerDay = sliceDay tz i := shifted_day_eq _
    unfold sliceEntries at ih ⊢
    rw [List.map_cons, List.filterMap_cons, List.filter_cons]
    simp only [hd]
    by_cases h : sliceDay tz i = day
    · simp only [h, if_true, decide_True, List.filterMap_cons]
      cases f i.cond <;> simp only [ih]
    · simp only [h, if_false, decide_False]
      exact ih

theorem allEntries_filterMap {β : Type} (list : List ForecastItem) (cData : Conditions)
    (tz now day : Int) (f : Conditions → Option β) :
    (allEntries list cData tz now).filterMap (fun e => if e.1 = day then f e.2 else none) =
      (list.filter (fun i => decide (sliceDay tz i = day))).filterMap (fun i => f i.cond) ++
        (if clockDay tz now = day then (f cData).toList else []) := by
  unfold allEntries
  rw [filterMap_day_snoc, sliceEntries_filterMap]
  rfl

theorem counted_append (p : List String) (d : String) :
    counted (p ++ [d]) = if d ∈ objectPrototypeKeys then counted p else counted p ++ [d] := by
  unfold counted
  rw [List.filter_append]
  by_cases h : d ∈ objectPrototypeKeys
  · rw [if_pos h]
    simp [h]
  · rw [if_neg h]
    simp [h]

theorem modeInv_init : ModeInv ⟨fun _ => 0, "", 0⟩ [] :=
  ⟨fun _ => rfl, fun _ => ⟨rfl, rfl⟩, fun _ => Nat.le_refl _, fun h => absurd rfl h⟩

theorem modeInv_step {s : ModeState} {p : List String} (h : ModeInv s p) (d : String)
    (hd : d ∉ objectPrototypeKeys) : ModeInv (modeStep s d) (p ++ [d]) := by
  have hc : ∀ k, (p ++ [d]).count k = p.count k + if k = d then 1 else 0 := by
    intro k
    rw [List.count_append, List.count_singleton]
    by_cases hk : k = d
    · subst hk; simp
    · have hk2 : ¬ d = k := fun e => hk e.symm
      simp [hk, hk2]
  unfold modeStep
  rw [if_neg hd]
  simp only
  by_cases hgt : s.counts d + 1 > s.bestCount
  · rw [if_pos hgt]
    have hcd := h.counts_eq d
    refine ⟨?_, ?_, ?_, ?_⟩
    · intro k
      rw [hc k]
      by_cases hk : k = d
      · subst hk; simp [h.counts_eq]
      · simp [hk, h.counts_eq]
    · intro hp
      exact absurd hp (by simp)
    · intro k
      rw [hc k]
      have hb := h.bound k
      by_cases hk : k = d
      · subst hk; simp only [if_true]; omega
      · simp only [hk, if_false]; omega
    · intro _
      refine ⟨?_, p, [], rfl, ?_, ?_⟩
      · rw [hc d]; simp only [if_true]; omega
      · simp only; omega
      · intro k
        have hb := h.bound k
        simp only
        omega
  · rw [if_neg hgt]
    have hcd := h.counts_eq d
    have hp : p ≠ [] := by
      intro hp
      have := (h.empty hp).2
      omega
    obtain ⟨hbest, q, r, hpq, hq1, hq2⟩ := h.first hp
    have hne : ¬ s.best = d := by
      intro he
      rw [he] at hbest
      omega
    refine ⟨?_, ?_, ?_, ?_⟩
    · intro k
      rw [hc k]
      by_cases hk : k = d
      · subst hk; simp [h.counts_eq]
      · simp [hk, h.counts_eq]
    · intro hp2
      exact absurd hp2 (by simp)
    · intro k
      rw [hc k]
      have hb := h.bound k
      by_cases hk : k = d
      · subst hk; simp only [if_true]; omega
      · simp only [hk, if_false]; omega
    · intro _
      refine ⟨?_, q, r ++ [d], ?_, hq1, hq2⟩
      · rw [hc s.best]; simp only [hne, if_false]; omega
      · rw [hpq]; simp

theorem modeInv_foldl (descs : List String) (s : ModeState) (p0 : List String)
    (h : ModeInv s (counted p0)) :
    ModeInv (descs.foldl modeStep s) (counted (p0 ++ descs)) := by
  induction descs generalizing s p0 with
  | nil => simpa using h
  | cons d rest ih =>
    rw [List.foldl_cons]
    have hstep : ModeInv (modeStep s d) (counted (p0 ++ [d])) := by
      rw [counted_append]
      by_cases hd : d ∈ objectPrototypeKeys
      · rw [if_pos hd]
        have : modeStep s d = s := by unfold modeStep; rw [if_pos hd]
        rw [this]
        exact h
      · rw [if_neg hd]
        exact modeInv_step h d hd
    have := ih _ _ hstep
    simpa [List.append_assoc] using this

/-- The loop invariant holds at the end of the mode computation. -/
theorem modeOf_inv (descs : List String) :
    ModeInv (descs.foldl modeStep ⟨fun _ => 0, "", 0⟩) (counted descs) := by
  have h := modeInv_foldl descs ⟨fun _ => 0, "", 0⟩ [] modeInv_init
  simpa using h

theorem counted_of_clean {descs : List String} (h : ∀ d ∈ descs, d ∉ objectPrototypeKeys) :
    counted descs = descs := by
  unfold counted
  rw [List.filter_eq_self]
  intro d hd
  simpa using h d hd

/-! ## C6: the most frequent description -/

/-- For a bucket none of whose descriptions is a property name of
`Object.prototype`, the reported description is the empty string when the
description list is empty, and otherwise an element of the list that occurs at
least as often as every other element. -/
theorem mode_of_clean_descs (b : Bucket)
    (hclean : ∀ d ∈ b.descs, d ∉ objectPrototypeKeys) :
    (b.descs = [] → (summarize b).description = "") ∧
    (b.descs ≠ [] → (summarize b).description ∈ b.descs ∧
      ∀ k, b.descs.count k ≤ b.descs.count (summarize b).description) := by
  have hinv := modeOf_inv b.descs
  rw [counted_of_clean hclean] at hinv
  have hd : (summarize b).description = (b.descs.foldl modeStep ⟨fun _ => 0, "", 0⟩).best := rfl
  rw [hd]
  refine ⟨fun he => (hinv.empty he).1, fun hne => ?_⟩
  obtain ⟨hbest, q, r, hpq, -, -⟩ := hinv.first hne
  refine ⟨?_, fun k => ?_⟩
  · have hmem : (b.descs.foldl modeStep ⟨fun _ => 0, "", 0⟩).best ∈
        q ++ (b.descs.foldl modeStep ⟨fun _ => 0, "", 0⟩).best :: r := by simp
    rw [← hpq] at hmem
    exact hmem
  · rw [hbest]; exact hinv.bound k

/-- C6, evaluated at a failing input: one forecast slice on 2025-11-06 (offset 0,
clock at 2025-11-06T00:00:00Z) with the description "constructor". The bucket of
that day has the non-empty description list "constructor", in which
"constructor" is the most frequent element, yet the reported description is the
empty string, which is not an element of the list. -/
theorem mode_ignores_prototype_key :
    forecast [⟨1762387200, reading 10 "constructor"⟩] noReading 0 sampleNow =
      some [⟨1762387200000, some 10, some 10, ""⟩] ∧
    descSamples [⟨1762387200, reading 10 "constructor"⟩] noReading 0 sampleNow 20398 =
      ["constructor"] ∧
    (summarize ⟨keyOfDay 20398, [10], [10], ["constructor"], 1762387200000⟩).description = "" ∧
    "" ∉ (["constructor"] : List String) := by
  decide

/-! ## C7: ties between descriptions -/

/-- C7 (as amended): for every day bucket with a non-empty description list, none
of whose strings is a property name of `Object.prototype`, the reported
description is a most frequent string of the list, and when several strings are
tied for the highest number of occurrences it is the tied string whose count
reaches that number first: the list splits as `q ++ best :: r` where `best` has
its last occurrence at the split and no string occurs that often in `q`. -/
theorem mode_tie_first_to_reach (b : Bucket)
    (hclean : ∀ d ∈ b.descs, d ∉ objectPrototypeKeys) (hne : b.descs ≠ []) :
    (summarize b).description ∈ b.descs ∧
    (∀ k, b.descs.count k ≤ b.descs.count (summarize b).description) ∧
    ∃ q r, b.descs = q ++ (summarize b).description :: r ∧
      q.count (summarize b).description + 1 = b.descs.count (summarize b).description ∧
      ∀ k, q.count k < b.descs.count (summarize b).description := by
  have hinv := modeOf_inv b.descs
  rw [counted_of_clean hclean] at hinv
  obtain ⟨hbest, q, r, hpq, hq1, hq2⟩ := hinv.first hne
  have hb := hinv.bound
  have hd : (summarize b).description = (b.descs.foldl modeStep ⟨fun _ => 0, "", 0⟩).best := rfl
  rw [hd]
  refine ⟨?_, ?_, q, r, hpq, ?_, ?_⟩
  · have hmem : (b.descs.foldl modeStep ⟨fun _ => 0, "", 0⟩).best ∈
        q ++ (b.descs.foldl modeStep ⟨fun _ => 0, "", 0⟩).best :: r := by simp
    rw [← hpq] at hmem
    exact hmem
  · intro k; rw [hbest]; exact hb k
  · rw [hbest]; exact hq1
  · intro k; rw [hbest]; exact hq2 k

/-- C7, a worked instance: the list of the spec, where "rain" reaches two
occurrences first. -/
theorem mode_tie_first_to_reach_witness :
    (∀ d ∈ (⟨keyOfDay 0, [], [], ["rain", "clear", "rain", "clear"], 0⟩ : Bucket).descs,
      d ∉ objectPrototypeKeys) ∧
    (summarize ⟨keyOfDay 0, [], [], ["rain", "clear", "rain", "clear"], 0⟩).description
      = "rain" ∧
    ∃ q r, (["rain", "clear", "rain", "clear"] : List String) =
        q ++ (summarize ⟨keyOfDay 0, [], [], ["rain", "clear", "rain", "clear"], 0⟩).description
          :: r ∧
      q.count (summarize ⟨keyOfDay 0, [], [], ["rain", "clear", "rain", "clear"], 0⟩).description
        + 1 = (["rain", "clear", "rain", "clear"] : List String).count
          (summarize ⟨keyOfDay 0, [], [], ["rain", "clear", "rain", "clear"], 0⟩).description ∧
      ∀ k, q.count k < (["rain", "clear", "rain", "clear"] : List String).count
          (summarize ⟨keyOfDay 0, [], [], ["rain", "clear", "rain", "clear"], 0⟩).description :=
  ⟨by decide, by decide,
    (mode_tie_first_to_reach ⟨keyOfDay 0, [], [], ["rain", "clear", "rain", "clear"], 0⟩
      (by decide) (by decide)).2.2⟩

/-- C7 as stated fails: in "rain", "clear", "clear", "rain" both strings occur
twice and "rain" is encountered first, but the reported description is "clear",
whose count reaches two first. -/
theorem mode_tie_counterexample :
    (summarize ⟨keyOfDay 0, [], [], ["rain", "clear", "clear", "rain"], 0⟩).description
      = "clear" ∧
    (["rain", "clear", "clear", "rain"] : List String).count "rain" = 2 ∧
    (["rain", "clear", "clear", "rain"] : List String).count "clear" = 2 ∧
    (∀ x ∈ (["rain", "clear", "clear", "rain"] : List String),
      (["rain", "clear", "clear", "rain"] : List String).count x ≤ 2) ∧
    (["rain", "clear", "clear", "rain"] : List String).indexOf "rain" <
      (["rain", "clear", "clear", "rain"] : List String).indexOf "clear" := by
  decide

/-! ## C8: the bucket of a slice -/

theorem alert_texts_distinct :
    heatAdvisory ≠ freezeRisk ∧ heatAdvisory ≠ highWind ∧ heatAdvisory ≠ thunderstorm ∧
    freezeRisk ≠ highWind ∧ freezeRisk ≠ thunderstorm ∧ highWind ≠ thunderstorm := by
  decide

theorem alerts_eq (t feels windMS id : Option ℚ) :
    alerts t feels windMS id =
      (if heatRule t feels then [heatAdvisory] else []) ++
      ((if freezeRule t then [freezeRisk] else []) ++
      ((if windRule windMS then [highWind] else []) ++
      (if thunderRule (widOf id) then [thunderstorm] else []))) := by
  unfold alerts
  cases heatRule t feels <;> cases freezeRule t <;> cases windRule windMS <;>
    cases thunderRule (widOf id) <;> rfl

theorem heatRule_iff (t feels : Option ℚ) :
    heatRule t feels = true ↔
      ∃ tv, t = some tv ∧ (35 ≤ tv ∨ ∃ fv, feels = some fv ∧ 35 ≤ fv) := by
  cases t with
  | none => simp [heatRule]
  | some tv =>
    cases feels with
    | none => simp [heatRule]
    | some fv => simp [heatRule]

theorem freezeRule_iff (t : Option ℚ) :
    freezeRule t = true ↔ ∃ tv, t = some tv ∧ tv ≤ 0 := by
  cases t <;> simp [freezeRule]

theorem windRule_iff (windMS : Option ℚ) :
    windRule windMS = true ↔ ∃ w, windMS = some w ∧ 15 ≤ w := by
  cases windMS <;> simp [windRule]

theorem thunderRule_iff (wid : ℚ) :
    thunderRule wid = true ↔ 200 ≤ wid ∧ wid < 300 := by
  simp [thunderRule]

/-- C9 (as amended): for every current-weather payload, the alerts list returned
by `/api/weather` contains the heat advisory if and only if the normalized
temperature is not null and either it is at least 35 or the normalized
feels-like temperature is not null and at least 35. -/
theorem heat_advisory_iff (t feels windMS id : Option ℚ) :
    heatAdvisory ∈ alerts t feels windMS id ↔
      ∃ tv, t = some tv ∧ (35 ≤ tv ∨ ∃ fv, feels = some fv ∧ 35 ≤ fv) := by
  obtain ⟨h1, h2, h3, -, -, -⟩ := alert_texts_distinct
  rw [alerts_eq, ← heatRule_iff]
  cases heatRule t feels <;> cases freezeRule t <;> cases windRule windMS <;>
    cases thunderRule (widOf id) <;> simp [h1, h2, h3]

/-- C9 as stated fails: with a null temperature and a feels-like temperature of
40 the alerts list holds no heat advisory. -/
theorem heat_advisory_counterexample :
    heatAdvisory ∉ alerts none (some 40) none none ∧
    ((none : Option ℚ) = none ∧ ∃ fv, (some 40 : Option ℚ) = some fv ∧ 35 ≤ fv) := by
  refine ⟨by decide, rfl, 40, rfl, by decide⟩

/-- The rounding of the model is `Math.round`: the floor of `q + 1/2`. -/
theorem mathRound_eq_floor (q : ℚ) : mathRound q = ⌊q + 1 / 2⌋ := by
  have h : q + 1 / 2 = ((2 * q.num + q.den : ℤ) : ℚ) / ((2 * q.den : ℕ) : ℚ) := by
    have hd : (q.den : ℚ) ≠ 0 := by exact_mod_cast q.den_nz
    conv_lhs => rw [← Rat.num_div_den q]
    push_cast
    field_simp
    ring
  rw [h, Rat.floor_intCast_div_natCast]
  unfold mathRound
  push_cast
  rfl

/-- The rounded value is an integer nearest to `q`. -/
theorem mathRound_nearest (q : ℚ) :
    (mathRound q : ℚ) ≤ q + 1 / 2 ∧ q - 1 / 2 < (mathRound q : ℚ) := by
  rw [mathRound_eq_floor]
  have h1 := Int.floor_le (q + 1 / 2)
  have h2 := Int.lt_floor_add_one (q + 1 / 2)
  constructor
  · exact h1
  · linarith

/-- On a provider field that is a number, a text or absent the normalizer does
what is expected of it: a number is kept (and rounded to a nearest integer for
humidity), a text gives the finite number it parses as and null otherwise, an
absent field gives null. -/
theorem num_of_number_text_absent (parse : String → Option ℚ) (q : ℚ) (s : String) :
    num parse (JsVal.num q) = some q ∧ int parse (JsVal.num q) = some (mathRound q) ∧
    num parse (JsVal.str s) = parse s ∧ int parse (JsVal.str s) = (parse s).map mathRound ∧
    num parse JsVal.undefined = none ∧ int parse JsVal.undefined = none ∧
    (mathRound q : ℚ) ≤ q + 1 / 2 ∧ q - 1 / 2 < (mathRound q : ℚ) := by
  refine ⟨rfl, rfl, ?_, ?_, rfl, rfl, (mathRound_nearest q).1, (mathRound_nearest q).2⟩
  · have h : toFinite parse (JsVal.str s) = parse s := rfl
    unfold num
    rw [h]
    cases parse s <;> rfl
  · have h : toFinite parse (JsVal.str s) = parse s := rfl
    unfold int
    rw [h]
    cases parse s <;> rfl

/-- C11, evaluated at a failing input: a payload whose `main.temp`,
`main.feels_like`, `main.humidity` and `wind.speed` are JSON `null`. Whatever
the parsing of texts, the normalizer answers 0 for each of the four fields, not
null, and the alerts report a freeze risk; `true` gives 1 likewise. -/
theorem num_of_json_null (parse : String → Option ℚ) :
    num parse JsVal.null = some 0 ∧ int parse JsVal.null = some 0 ∧
    num parse (JsVal.bool true) = some 1 ∧
    normalizeWeather parse ⟨JsVal.null, JsVal.null, JsVal.null, JsVal.null, none⟩ =
      ⟨some 0, some 0, some 0, some 0, [freezeRisk]⟩ := by
  have hr : mathRound 0 = 0 := by decide
  have hi : int parse JsVal.null = some 0 := by
    unfold int toFinite
    simp only [hr]
  have h : alerts (some 0) (some 0) (some 0) none = [freezeRisk] := by decide
  refine ⟨rfl, hi, rfl, ?_⟩
  unfold normalizeWeather
  simp only [hi]
  unfold num toFinite
  simp only [h]

/-! ## C12: conversion there and back -/

/-- C12 (as amended): for every Celsius value `c`,
`convertTemp(convertTemp(c, 'imperial'), 'metric')` is the Fahrenheit value
`c * 9 / 5 + 32` itself: the metric passthrough returns its argument unchanged
and converts nothing back, so the result is within 1e-6 of `c` only when `c` is
within 1.25e-6 of -40; the Celsius value is recovered as `(F - 32) * 5 / 9`. -/
theorem convert_there_and_back (c : ℚ) :
    convertTemp (convertTemp c "imperial") "metric" = convertTemp c "imperial" ∧
    convertTemp (convertTemp c "imperial") "metric" = c * 9 / 5 + 32 ∧
    (convertTemp (convertTemp c "imperial") "metric" - 32) * 5 / 9 = c ∧
    (|convertTemp (convertTemp c "imperial") "metric" - c| ≤ 1 / 1000000 ↔
      |c + 40| ≤ 1 / 800000) := by
  have h1 : ∀ x : ℚ, convertTemp x "metric" = x := by
    intro x
    unfold convertTemp
    rw [if_neg (by decide)]
  have h2 : convertTemp c "imperial" = c * 9 / 5 + 32 := by
    unfold convertTemp
    rw [if_pos rfl]
  rw [h1, h2]
  refine ⟨rfl, rfl, by ring, ?_⟩
  have h3 : c * 9 / 5 + 32 - c = 4 / 5 * (c + 40) := by ring
  rw [h3, abs_mul, abs_of_pos (by norm_num : (0 : ℚ) < 4 / 5)]
  constructor <;> intro h <;> linarith

/-- C12 as stated fails: for `c = 0` the result is 32, not within 1e-6 of 0. -/
theorem convert_there_and_back_counterexample :
    convertTemp (convertTemp 0 "imperial") "metric" = 32 ∧
    ¬ |convertTemp (convertTemp 0 "imperial") "metric" - 0| ≤ 1 / 1000000 := by
  have h : convertTemp (convertTemp 0 "imperial") "metric" = 32 := by
    unfold convertTemp
    rw [if_neg (by decide), if_pos rfl]
    norm_num
  rw [h]
  refine ⟨rfl, ?_⟩
  norm_num

/-! ## C13: adding the current location to the favorites -/

theorem sameCoords_place (name : String) (lat lon : JsVal) :
    sameCoords lat lon (Favorite.place name lat lon) = true := by
  simp [sameCoords]

theorem sameCoords_iff (lat lon : JsVal) (f : Favorite) :
    sameCoords lat lon f = true ↔ ∃ name, f = Favorite.place name lat lon := by
  cases f with
  | legacy s => simp [sameCoords]
  | place name flat flon =>
    simp only [sameCoords, Bool.and_eq_true, decide_eq_true_eq, Favorite.place.injEq]
    constructor
    · rintro ⟨h1, h2⟩
      exact ⟨name, rfl, h1, h2⟩
    · rintro ⟨_, -, h1, h2⟩
      exact ⟨h1, h2⟩

theorem add_of_present {favs : List Favorite} {lat lon : JsVal} (label : Option String)
    (h : favs.any (sameCoords lat lon) = true) :
    addCurrentToFavorites favs (some ⟨lat, lon⟩) label = favs := by
  unfold addCurrentToFavorites
  simp [h]

theorem add_of_absent {favs : List Favorite} {lat lon : JsVal} (label : Option String)
    (h : favs.any (sameCoords lat lon) = false) :
    addCurrentToFavorites favs (some ⟨lat, lon⟩) label =
      favs ++ [Favorite.place (entryName label) lat lon] := by
  unfold addCurrentToFavorites
  simp [h]

theorem any_after_add (favs : List Favorite) (lat lon : JsVal) (label : Option String) :
    (addCurrentToFavorites favs (some ⟨lat, lon⟩) label).any (sameCoords lat lon) = true := by
  cases h : favs.any (sameCoords lat lon) with
  | true => rw [add_of_present label h]; exact h
  | false =>
    rw [add_of_absent label h, List.any_append]
    simp [sameCoords_place]

/-- C13: for every stored favorites list and every current location with
coordinates `(lat, lon)`, `addCurrentToFavorites` leaves the list unchanged when
some object entry already has the same `lat` and `lon`, and otherwise appends
exactly one entry `{name, lat, lon}` at the end, keeping all earlier entries in
order; so adding the same coordinate twice equals adding it once, while a
different coordinate with the same name adds a second entry. With no current
coordinates the list is unchanged. -/
theorem add_current_to_favorites (favs : List Favorite) (lat lon lat2 lon2 : JsVal)
    (label label2 : Option String) :
    ((∃ f ∈ favs, ∃ name, f = Favorite.place name lat lon) →
      addCurrentToFavorites favs (some ⟨lat, lon⟩) label = favs) ∧
    ((¬ ∃ f ∈ favs, ∃ name, f = Favorite.place name lat lon) →
      addCurrentToFavorites favs (some ⟨lat, lon⟩) label =
        favs ++ [Favorite.place (entryName label) lat lon]) ∧
    addCurrentToFavorites (addCurrentToFavorites favs (some ⟨lat, lon⟩) label)
        (some ⟨lat, lon⟩) label2 =
      addCurrentToFavorites favs (some ⟨lat, lon⟩) label ∧
    ((lat2, lon2) ≠ (lat, lon) →
      (¬ ∃ f ∈ favs, ∃ name, f = Favorite.place name lat2 lon2) →
      addCurrentToFavorites (addCurrentToFavorites favs (some ⟨lat, lon⟩) label)
          (some ⟨lat2, lon2⟩) label =
        addCurrentToFavorites favs (some ⟨lat, lon⟩) label ++
          [Favorite.place (entryName label) lat2 lon2]) ∧
    addCurrentToFavorites favs none label = favs := by
  have hany : ∀ (l : List Favorite) (a b : JsVal),
      l.any (sameCoords a b) = true ↔ ∃ f ∈ l, ∃ name, f = Favorite.place name a b := by
    intro l a b
    rw [List.any_eq_true]
    constructor
    · rintro ⟨f, hf, hs⟩
      exact ⟨f, hf, (sameCoords_iff a b f).mp hs⟩
    · rintro ⟨f, hf, hs⟩
      exact ⟨f, hf, (sameCoords_iff a b f).mpr hs⟩
  refine ⟨?_, ?_, ?_, ?_, rfl⟩
  · intro h
    exact add_of_present label ((hany favs lat lon).mpr h)
  · intro h
    apply add_of_absent label
    cases hc : favs.any (sameCoords lat lon) with
    | false => rfl
    | true => exact absurd ((hany favs lat lon).mp hc) h
  · exact add_of_present label2 (any_after_add favs lat lon label)
  · intro hne h2
    apply add_of_absent label
    cases hc : (addCurrentToFavorites favs (some ⟨lat, lon⟩) label).any
        (sameCoords lat2 lon2) with
    | false => rfl
    | true =>
      exfalso
      obtain ⟨f, hf, name, hfn⟩ := (hany _ lat2 lon2).mp hc
      have hmem : f ∈ favs ∨ f = Favorite.place (entryName label) lat lon := by
        cases hp : favs.any (sameCoords lat lon) with
        | true =>
          rw [add_of_present label hp] at hf
          exact Or.inl hf
        | false =>
          rw [add_of_absent label hp] at hf
          rcases List.mem_append.mp hf with h | h
          · exact Or.inl h
          · exact Or.inr (by simpa using h)
      rcases hmem with hm | hm
      · exact h2 ⟨f, hm, name, hfn⟩
      · rw [hm] at hfn
        injection hfn with _ h3 h4
        exact hne (by rw [h3, h4])

/-- C13, a worked instance: from one legacy entry, "Paris, FR" at (48, 2) is
appended, and "Paris, FR" at (49, 3) is then appended as a second entry. -/
theorem add_current_to_favorites_witness :
    ((JsVal.num 49, JsVal.num 3) ≠ (JsVal.num 48, JsVal.num 2)) ∧
    (¬ ∃ f ∈ [Favorite.legacy "Lyon"], ∃ name, f = Favorite.place name (JsVal.num 49)
      (JsVal.num 3)) ∧
    addCurrentToFavorites [Favorite.legacy "Lyon"] (some ⟨JsVal.num 48, JsVal.num 2⟩)
      (some "Paris, FR") =
      [Favorite.legacy "Lyon", Favorite.place "Paris, FR" (JsVal.num 48) (JsVal.num 2)] ∧
    addCurrentToFavorites (addCurrentToFavorites [Favorite.legacy "Lyon"]
        (some ⟨JsVal.num 48, JsVal.num 2⟩) (some "Paris, FR"))
        (some ⟨JsVal.num 49, JsVal.num 3⟩) (some "Paris, FR") =
      addCurrentToFavorites [Favorite.legacy "Lyon"] (some ⟨JsVal.num 48, JsVal.num 2⟩)
        (some "Paris, FR") ++ [Favorite.place (entryName (some "Paris, FR")) (JsVal.num 49)
          (JsVal.num 3)] :=
  ⟨by decide, by simp, by decide,
    (add_current_to_favorites [Favorite.legacy "Lyon"] (JsVal.num 48) (JsVal.num 2)
      (JsVal.num 49) (JsVal.num 3) (some "Paris, FR") none).2.2.2.1 (by decide) (by simp)⟩

/-! ## C14: selection of the provider request -/

/-- C14: for `/api/forecast` and `/api/weather` (a parameter counts as given
when it is present and not empty): if the query has no city and lacks `lat` or
`lon`, the response is status 400 with the error "Provide ?city= or ?lat=&lon="
and no provider request is made; if `city` is given it selects the provider
request even when `lat` and `lon` are also given, and otherwise `lat` and `lon`
select it. -/
theorem route_selection (enc : String → String) (api : String) (city lat lon : Option String) :
    (given city = false → (given lat = false ∨ given lon = false) →
      weatherRoute enc api city lat lon = Routed.reject 400 "Provide ?city= or ?lat=&lon=" ∧
      forecastRoute enc api city lat lon = Routed.reject 400 "Provide ?city= or ?lat=&lon=") ∧
    (given city = true →
      weatherRoute enc api city lat lon = weatherRoute enc api city none none ∧
      forecastRoute enc api city lat lon = forecastRoute enc api city none none ∧
      weatherRoute enc api city lat lon =
        Routed.request ["https://api.openweathermap.org/data/2.5/weather?q=" ++
          enc (textOf city) ++ "&appid=" ++ api ++ "&units=metric"] ∧
      forecastRoute enc api city lat lon =
        Routed.request ["https://api.openweathermap.org/data/2.5/forecast?q=" ++
          enc (textOf city) ++ "&appid=" ++ api ++ "&units=metric",
          "https://api.openweathermap.org/data/2.5/weather?q=" ++
          enc (textOf city) ++ "&appid=" ++ api ++ "&units=metric"]) ∧
    (given city = false → given lat = true → given lon = true →
      weatherRoute enc api city lat lon =
        Routed.request ["https://api.openweathermap.org/data/2.5/weather?lat=" ++
          textOf lat ++ "&lon=" ++ textOf lon ++ "&appid=" ++ api ++ "&units=metric"] ∧
      forecastRoute enc api city lat lon =
        Routed.request ["https://api.openweathermap.org/data/2.5/forecast?lat=" ++
          textOf lat ++ "&lon=" ++ textOf lon ++ "&appid=" ++ api ++ "&units=metric",
          "https://api.openweathermap.org/data/2.5/weather?lat=" ++
          textOf lat ++ "&lon=" ++ textOf lon ++ "&appid=" ++ api ++ "&units=metric"]) := by
  refine ⟨?_, ?_, ?_⟩
  · intro hc hl
    unfold weatherRoute forecastRoute
    rcases hl with hl | hl <;> simp [hc, hl]
  · intro hc
    unfold weatherRoute forecastRoute
    simp [hc]
  · intro hc hlat hlon
    unfold weatherRoute forecastRoute
    simp [hc, hlat, hlon]

/-- C14, a worked instance: `?lat=48.85` alone is rejected, `?city=Paris` with
coordinates asks for Paris, coordinates alone ask for the coordinates. -/
theorem route_selection_witness :
    (given (none : Option String) = false ∧ given (none : Option String) = false ∧
      weatherRoute (fun s => s) "KEY" none (some "48.85") none =
        Routed.reject 400 "Provide ?city= or ?lat=&lon=") ∧
    (given (some "Paris") = true ∧
      weatherRoute (fun s => s) "KEY" (some "Paris") (some "48.85") (some "2.35") =
        weatherRoute (fun s => s) "KEY" (some "Paris") none none) ∧
    (given (some "48.85") = true ∧ given (some "2.35") = true ∧
      weatherRoute (fun s => s) "KEY" none (some "48.85") (some "2.35") =
        Routed.request ["https://api.openweathermap.org/data/2.5/weather?lat=" ++
          textOf (some "48.85") ++ "&lon=" ++ textOf (some "2.35") ++ "&appid=" ++ "KEY" ++
          "&units=metric"]) :=
  ⟨⟨by decide, by decide,
      ((route_selection (fun s => s) "KEY" none (some "48.85") none).1 (by decide)
        (Or.inr (by decide))).1⟩,
    ⟨by decide,
      ((route_selection (fun s => s) "KEY" (some "Paris") (some "48.85") (some "2.35")).2.1
        (by decide)).1⟩,
    ⟨by decide, by decide,
      ((route_selection (fun s => s) "KEY" none (some "48.85") (some "2.35")).2.2
        (by decide) (by decide) (by decide)).1⟩⟩

/-! ## C15: the limit of `/api/geocode` -/

theorem minTen_le (x : Option Int) (n : Int) (h : minTen x = some n) : n ≤ 10 := by
  cases x with
  | none => cases h
  | some m =>
    have h2 : min m 10 = n := Option.some.inj h
    rw [← h2]
    exact min_le_right m 10

theorem given_orParam (a b : Option String) :
    given (orParam a b) = (given a || given b) := by
  unfold orParam
  cases h : given a <;> simp [h]

/-- C15 (as amended): a `/api/geocode` request gets status 400 exactly when it
has neither a non-empty `q` nor a non-empty `query` (which stands in for `q`).
Otherwise the limit passed to the provider is 5 when the request gives no limit
or an empty one, and `min(parseInt(limit), 10)` when it gives one: an integer at
most 10 with no lower bound, or NaN when the limit does not start with an
integer. -/
theorem geocode_limit (q query limit : Option String) :
    (geocodeRoute q query limit = GeoRouted.reject 400 "Provide ?q=" ↔
      given q = false ∧ given query = false) ∧
    (∀ qv lim, geocodeRoute q query limit = GeoRouted.request qv lim →
      (given q = true ∨ given query = true) ∧
      (∀ n, lim = some n → n ≤ 10) ∧
      (given limit = false → lim = some 5) ∧
      (given limit = true → ∀ m, parseInt10 (textOf limit) = some m → lim = some (min m 10)) ∧
      (given limit = true → parseInt10 (textOf limit) = none → lim = none)) := by
  have hq := given_orParam q query
  have h5 : parseInt10 "5" = some 5 := by decide
  constructor
  · unfold geocodeRoute
    simp only
    cases hg : given (orParam q query) with
    | false =>
      rw [hg] at hq
      have : given q = false ∧ given query = false := by
        cases h1 : given q <;> cases h2 : given query <;> simp [h1, h2] at hq ⊢
      simp [this]
    | true =>
      rw [hg] at hq
      have : ¬ (given q = false ∧ given query = false) := by
        rintro ⟨h1, h2⟩
        simp [h1, h2] at hq
      simp [this]
  · intro qv lim h
    unfold geocodeRoute at h
    simp only at h
    cases hg : given (orParam q query) with
    | false => simp [hg] at h
    | true =>
      rw [hg] at hq
      simp only [hg, Bool.not_true, Bool.false_eq_true, if_false, GeoRouted.request.injEq] at h
      obtain ⟨-, hlim⟩ := h
      refine ⟨?_, ?_, ?_, ?_, ?_⟩
      · cases h1 : given q <;> cases h2 : given query <;> simp [h1, h2] at hq ⊢
      · intro n hn
        rw [← hlim] at hn
        exact minTen_le _ n hn
      · intro hl
        rw [← hlim]
        unfold orParam
        simp only [hl, Bool.false_eq_true, if_false]
        show minTen (parseInt10 "5") = some 5
        rw [h5]
        rfl
      · intro hl m hm
        rw [← hlim]
        unfold orParam
        simp only [hl, if_true, hm]
        rfl
      · intro hl hm
        rw [← hlim]
        unfold orParam
        simp only [hl, if_true, hm]
        rfl

/-- C15, a worked instance: `?q=paris` gets limit 5, `?q=paris&limit=25` gets
limit 10. -/
theorem geocode_limit_witness :
    geocodeRoute (some "paris") none none = GeoRouted.request "paris" (some 5) ∧
    geocodeRoute (some "paris") none (some "25") = GeoRouted.request "paris" (some 10) ∧
    given (none : Option String) = false ∧
    (some 5 : Option Int) = some 5 :=
  ⟨by decide, by decide, by decide,
    ((geocode_limit (some "paris") none none).2 "paris" (some 5) (by decide)).2.2.1
      (by decide)⟩

/-- C15 as stated fails: with `?q=paris&limit=0` the limit passed is 0, with
`limit=-3` it is -3 and with `limit=abc` it is NaN, none of them an integer
between 1 and 10; and `?query=paris`, a request without `q`, is not answered
with status 400. -/
theorem geocode_limit_counterexample :
    geocodeRoute (some "paris") none (some "0") = GeoRouted.request "paris" (some 0) ∧
    geocodeRoute (some "paris") none (some "-3") = GeoRouted.request "paris" (some (-3)) ∧
    geocodeRoute (some "paris") none (some "abc") = GeoRouted.request "paris" none ∧
    geocodeRoute none (some "paris") none = GeoRouted.request "paris" (some 5) ∧
    ¬ ((1 : Int) ≤ 0 ∧ (0 : Int) ≤ 10) := by
  decide

/-! ## C16: arrow keys in the suggestion list -/

/-- C16: for a visible suggestion list of `n ≥ 1` items and any selection index
`i` with `-1 ≤ i < n`, ArrowDown sets the index to `(i + 1) mod n` and ArrowUp
to `(i - 1 + n) mod n`: the index is a valid position `0..n-1` after every arrow
key, ArrowDown on the last item wraps to the first, and ArrowUp on the first
item wraps to the last; the list itself stays as it is. -/
theorem arrow_keys_wrap (n : Nat) (i : Int) (hn : 1 ≤ n) (hlo : -1 ≤ i) (hhi : i < n) :
    keydown ⟨true, n, i⟩ "ArrowDown" = ⟨true, n, (i + 1) % n⟩ ∧
    keydown ⟨true, n, i⟩ "ArrowUp" = ⟨true, n, (i - 1 + n) % n⟩ ∧
    (0 ≤ (keydown ⟨true, n, i⟩ "ArrowDown").suggestIndex ∧
      (keydown ⟨true, n, i⟩ "ArrowDown").suggestIndex < n) ∧
    (0 ≤ (keydown ⟨true, n, i⟩ "ArrowUp").suggestIndex ∧
      (keydown ⟨true, n, i⟩ "ArrowUp").suggestIndex < n) ∧
    (i = n - 1 → (keydown ⟨true, n, i⟩ "ArrowDown").suggestIndex = 0) ∧
    (i = 0 → (keydown ⟨true, n, i⟩ "ArrowUp").suggestIndex = n - 1) := by
  have hn0 : ¬ (n == 0) = true := by
    simp only [beq_iff_eq]
    omega
  have hnpos : (0 : Int) < n := by omega
  have hdown : keydown ⟨true, n, i⟩ "ArrowDown" = ⟨true, n, (i + 1) % n⟩ := by
    unfold keydown jsRem
    simp only [Bool.not_true, Bool.false_or, hn0, Bool.false_eq_true, if_false, if_true]
    rw [Int.tmod_eq_emod (by omega) (by omega)]
  have hup : keydown ⟨true, n, i⟩ "ArrowUp" = ⟨true, n, (i - 1 + n) % n⟩ := by
    unfold keydown jsRem
    have hne : ¬ ("ArrowUp" = "ArrowDown") := by decide
    simp only [Bool.not_true, Bool.false_or, hn0, Bool.false_eq_true, if_false, hne, if_true]
    by_cases h1 : 0 ≤ i - 1 + n
    · rw [Int.tmod_eq_emod h1 (by omega)]
    · have hi : i = -1 := by omega
      have hn1 : (n : Int) = 1 := by omega
      rw [hi, hn1]
      rfl
  rw [hdown, hup]
  refine ⟨rfl, rfl, ⟨Int.emod_nonneg _ (by omega), Int.emod_lt_of_pos _ hnpos⟩,
    ⟨Int.emod_nonneg _ (by omega), Int.emod_lt_of_pos _ hnpos⟩, ?_, ?_⟩
  · intro h
    show (i + 1) % (n : Int) = 0
    rw [h]
    simp
  · intro h
    show (i - 1 + n) % (n : Int) = n - 1
    rw [h]
    have : (0 : Int) - 1 + n = n - 1 := by ring
    rw [this]
    exact Int.emod_eq_of_lt (by omega) (by omega)

/-- C16, a worked instance: three items; from the fresh index -1 ArrowDown goes
to the first item, from the last item it wraps to the first, and ArrowUp on the
first item wraps to the last. -/
theorem arrow_keys_wrap_witness :
    keydown ⟨true, 3, 2⟩ "ArrowDown" = ⟨true, 3, 0⟩ ∧
    keydown ⟨true, 3, 0⟩ "ArrowUp" = ⟨true, 3, 2⟩ ∧
    keydown ⟨true, 3, -1⟩ "ArrowDown" = ⟨true, 3, 0⟩ ∧
    (1 ≤ 3 ∧ (-1 : Int) ≤ 2 ∧ (2 : Int) < (3 : Nat)) ∧
    ((2 : Int) = (3 : Nat) - 1 → (keydown ⟨true, 3, 2⟩ "ArrowDown").suggestIndex = 0) :=
  ⟨by decide, by decide, by decide, by decide,
    (arrow_keys_wrap 3 2 (by decide) (by decide) (by decide)).2.2.2.2.1⟩
